import Mathlib

/-!
# MultiSoftmaxLayer

A shallow embedding of `src/caffe/layers/multi_softmax_layer.cpp`: the shape
derivation `Reshape`, the forward kernel `Forward_cpu` and the backward kernel
`Backward_cpu` of the per-pixel, channel-wise softmax layer.

* `Dtype` is a type parameter `α` carrying a linearly ordered field; the
  exponential is a parameter `exp : α → α`, so every definition is executable
  (for instance over `ℚ`).  The theorems instantiate `α := ℝ`, `exp := Real.exp`.
* A raw buffer (`Dtype*`) is a function `Nat → α` from flat offsets to values.
* `int` quantities are natural numbers: the dimensions of a blob are
  non-negative and their product, the element count of its allocated storage,
  fits an `int`, so the index arithmetic on them is exact.  An `int` division
  by zero and an out-of-range `vector` subscript are failures.
* A call yields an `Outcome`: the failure that stopped it, if any, together
  with the blob vector it writes to and the layer as the call leaves them.
* The kernels are given a second time with every subscript checked against
  the element count of its buffer (`Forward_cpu_checked`,
  `Backward_cpu_checked`), to state that no access is out of range.
-/

namespace MultiSoftmax

/-! ## Control flow and raw buffers -/

/-- The loop `for (int i = 0; i < n; ++i) body`: the body runs for
`i = 0, 1, ..., n - 1` in this order on the threaded state. -/
def forLoop {σ : Type} : Nat → (Nat → σ → σ) → σ → σ
  | 0, _, s => s
  | n + 1, body, s => body n (forLoop n body s)

/-- The assignment `buf[p] = v` on a raw buffer. -/
def store {α : Type} (buf : Nat → α) (p : Nat) (v : α) : Nat → α :=
  fun q => if q = p then v else buf q

/-- The call `memcpy(dst, src, sizeof(Dtype) * n)`: the first `n` elements of
`dst` become those of `src`. -/
def memcpy {α : Type} (dst src : Nat → α) (n : Nat) : Nat → α :=
  fun p => if p < n then src p else dst p

/-- Modelled from the spec: the vectorised primitive `caffe_exp(n, a, y)` of
caffe/util/math_functions (not part of the sources), a black-box element-wise
exponential: `y[p] = exp(a[p])` for `p < n`. -/
def caffe_exp {α : Type} (exp : α → α) (n : Nat) (a y : Nat → α) : Nat → α :=
  fun p => if p < n then exp (a p) else y p

/-- Modelled from the spec: the vectorised primitive `caffe_mul(n, a, b, y)` of
caffe/util/math_functions (not part of the sources), a black-box element-wise
product: `y[p] = a[p] * b[p]` for `p < n`. -/
def caffe_mul {α : Type} [Mul α] (n : Nat) (a b y : Nat → α) : Nat → α :=
  fun p => if p < n then a p * b p else y p

/-! ## Data model -/

/-- The ways a call can fail to return. -/
inductive Failure where
  /-- A `CHECK_EQ` did not hold: the process aborts with the message. -/
  | checkFailed (msg : String)
  /-- The subscript `bottom[0]` or `(*top)[0]` on an empty vector. -/
  | outOfRange
  /-- An `int` division whose divisor is zero. -/
  | divByZero
  deriving DecidableEq, Repr

/-- Modelled from the spec: the tensor container `Blob<Dtype>` (caffe/blob.hpp
is not part of the sources): a rank-4 shape `(num, channels, height, width)`
with a contiguous NCHW value buffer `data` (`cpu_data`) and a gradient buffer
`diff` (`cpu_diff`) of the same layout. -/
structure Blob (α : Type) where
  num : Nat
  channels : Nat
  height : Nat
  width : Nat
  data : Nat → α
  diff : Nat → α

/-- Modelled from the spec: `Blob::count()`, the number of elements
`num * channels * height * width`. -/
def Blob.count {α : Type} (b : Blob α) : Nat :=
  b.num * b.channels * b.height * b.width

/-- Modelled from the spec: `Blob::Reshape(num, channels, height, width)` sets
the four dimensions (the storage is reallocated by the container; buffers are
total functions here, so the contents are kept). -/
def Blob.Reshape {α : Type} (b : Blob α) (num channels height width : Nat) : Blob α :=
  { b with num := num, channels := channels, height := height, width := width }

/-- The layer object: the configured `max_multiple` of
`layer_param_.mult_softmax_param()` and the two member blobs. -/
structure MultiSoftmaxLayer (α : Type) where
  max_multiple : α
  sum_multiplier_ : Blob α
  scale_ : Blob α

/-- The NCHW flat offset of element `(i, k, j)` (batch `i`, channel `k`,
flattened spatial position `j`) in a tensor with `C` channels and `H * W`
positions: `i * (C*H*W) + k * (H*W) + j`. -/
def offset (C H W i k j : Nat) : Nat :=
  i * (C * H * W) + k * (H * W) + j

/-- The scratch-buffer offset of `(i, j)`: `i * (H*W) + j`. -/
def scaleOffset (H W i j : Nat) : Nat :=
  i * (H * W) + j

/-- The value `data[i, k, j]` of a blob, read through its own shape. -/
def Blob.dataAt {α : Type} (b : Blob α) (i k j : Nat) : α :=
  b.data (offset b.channels b.height b.width i k j)

/-- The gradient `diff[i, k, j]` of a blob, read through its own shape. -/
def Blob.diffAt {α : Type} (b : Blob α) (i k j : Nat) : α :=
  b.diff (offset b.channels b.height b.width i k j)

/-- The outcome of a call: the failure that stopped it (`none` when it
returned), and the blob vector it writes to and the layer as the call leaves
them. -/
structure Outcome (α : Type) where
  failure : Option Failure
  blobs : List (Blob α)
  layer : MultiSoftmaxLayer α

/-! ## Reshape (lines 15-38) -/

section Kernels

variable {α : Type} [LinearOrderedField α]

/-- The method `MultiSoftmaxLayer::Reshape(bottom, top)`; the outcome carries
the `top` vector. -/
def Reshape (layer : MultiSoftmaxLayer α) (bottom top : List (Blob α)) : Outcome α :=
  if bottom.length ≠ 1 then
    ⟨some (.checkFailed ("Softmax Layer takes a single blob as input.")), top, layer⟩
  else if top.length ≠ 1 then
    ⟨some (.checkFailed ("Softmax Layer takes a single blob as output.")), top, layer⟩
  else
    match bottom, top with
    | b :: _, t :: ts =>
      let top := t.Reshape b.num b.channels b.height b.width :: ts
      let sm := layer.sum_multiplier_.Reshape 1 b.channels b.height b.width
      let multiplier_data := forLoop sm.count (fun i d => store d i 1) sm.data
      let layer := { layer with sum_multiplier_ := { sm with data := multiplier_data } }
      let num := b.num
      if num = 0 then ⟨some .divByZero, top, layer⟩ else
      let dim := b.count / num
      let dimClass := b.channels
      if dimClass = 0 then ⟨some .divByZero, top, layer⟩ else
      let imgSize := dim / dimClass
      ⟨none, top, { layer with scale_ := layer.scale_.Reshape (b.num * imgSize) 1 1 1 }⟩
    | _, _ => ⟨some .outOfRange, top, layer⟩

/-! ## Forward_cpu (lines 40-109) -/

/-- Lines 60-70: the per-position maximum over the channels, left in
`scale_data`. -/
def maxPass (num dim dimClass imgSize : Nat) (bottom_data scale_data : Nat → α) : Nat → α :=
  forLoop num (fun i scale_data =>
    forLoop imgSize (fun j scale_data =>
      let scale_data := store scale_data (i * imgSize + j) (bottom_data (i * dim + j))
      forLoop dimClass (fun k scale_data =>
        store scale_data (i * imgSize + j)
          (max (scale_data (i * imgSize + j)) (bottom_data (i * dim + k * imgSize + j))))
        scale_data)
      scale_data)
    scale_data

/-- Lines 73-80 (and 138-146 of the backward kernel): the subtraction
`data[i*dim + k*imgSize + j] -= scale_data[i*imgSize + j]`. -/
def subPass (num dim dimClass imgSize : Nat) (scale_data top_data : Nat → α) : Nat → α :=
  forLoop num (fun i top_data =>
    forLoop imgSize (fun j top_data =>
      forLoop dimClass (fun k top_data =>
        store top_data (i * dim + k * imgSize + j)
          (top_data (i * dim + k * imgSize + j) - scale_data (i * imgSize + j)))
        top_data)
      top_data)
    top_data

/-- Lines 85-93: the per-position sum over the channels, left in
`scale_data`. -/
def sumPass (num dim dimClass imgSize : Nat) (top_data scale_data : Nat → α) : Nat → α :=
  forLoop num (fun i scale_data =>
    forLoop imgSize (fun j scale_data =>
      let scale_data := store scale_data (i * imgSize + j) 0
      forLoop dimClass (fun k scale_data =>
        store scale_data (i * imgSize + j)
          (scale_data (i * imgSize + j) + top_data (i * dim + k * imgSize + j)))
        scale_data)
      scale_data)
    scale_data

/-- Lines 98-108: division by the sum (`/= Dtype(1.) * scale_data[..]`), then
multiplication by `multiple`. -/
def divPass (num dim dimClass imgSize : Nat) (multiple : α) (scale_data top_data : Nat → α) :
    Nat → α :=
  forLoop num (fun i top_data =>
    forLoop imgSize (fun j top_data =>
      forLoop dimClass (fun k top_data =>
        let top_data := store top_data (i * dim + k * imgSize + j)
          (top_data (i * dim + k * imgSize + j) / (1 * scale_data (i * imgSize + j)))
        store top_data (i * dim + k * imgSize + j)
          (top_data (i * dim + k * imgSize + j) * multiple))
        top_data)
      top_data)
    top_data

/-- The method `MultiSoftmaxLayer::Forward_cpu(bottom, top)`; the outcome
carries the `top` vector, the data of `(*top)[0]` rewritten, and the layer, the
data of `scale_` rewritten.  There is no `CHECK` in this method: it reads
`bottom[0]` and `(*top)[0]` whatever the sizes of the two vectors. -/
def Forward_cpu (exp : α → α) (layer : MultiSoftmaxLayer α) (bottom top : List (Blob α)) :
    Outcome α :=
  match bottom, top with
  | b :: _, t :: ts =>
    let bottom_data := b.data
    let top_data := t.data
    let scale_data := layer.scale_.data
    let num := b.num
    if num = 0 then ⟨some .divByZero, top, layer⟩ else
    let dim := b.count / b.num
    let dimClass := b.channels
    let height := b.height
    let width := b.width
    let imgSize := height * width
    let top_data := memcpy top_data bottom_data b.count
    let scale_data := maxPass num dim dimClass imgSize bottom_data scale_data
    let top_data := subPass num dim dimClass imgSize scale_data top_data
    let top_data := caffe_exp exp (num * dim) top_data top_data
    let scale_data := sumPass num dim dimClass imgSize top_data scale_data
    let multiple := layer.max_multiple
    let top_data := divPass num dim dimClass imgSize multiple scale_data top_data
    ⟨none, { t with data := top_data } :: ts,
      { layer with scale_ := { layer.scale_ with data := scale_data } }⟩
  | _, _ => ⟨some .outOfRange, top, layer⟩

/-! ## Backward_cpu (lines 111-158) -/

/-- Lines 127-136: the per-position inner product of `top_diff` and `top_data`
over the channels, left in `scale_data`. -/
def dotPass (num dim dimClass imgSize : Nat) (top_diff top_data scale_data : Nat → α) :
    Nat → α :=
  forLoop num (fun i scale_data =>
    forLoop imgSize (fun j scale_data =>
      let scale_data := store scale_data (i * imgSize + j) 0
      forLoop dimClass (fun k scale_data =>
        store scale_data (i * imgSize + j)
          (scale_data (i * imgSize + j)
            + top_diff (i * dim + k * imgSize + j) * top_data (i * dim + k * imgSize + j)))
        scale_data)
      scale_data)
    scale_data

/-- The method `MultiSoftmaxLayer::Backward_cpu(top, propagate_down, bottom)`;
the outcome carries the `bottom` vector, the diff of `(*bottom)[0]` rewritten,
and the layer, the data of `scale_` rewritten.  The vector `propagate_down` is
accepted and never read, and `max_multiple` is not read either. -/
def Backward_cpu (layer : MultiSoftmaxLayer α) (top : List (Blob α))
    (_propagate_down : List Bool) (bottom : List (Blob α)) : Outcome α :=
  match top, bottom with
  | t :: _, b :: bs =>
    let top_diff := t.diff
    let top_data := t.data
    let bottom_diff := b.diff
    let scale_data := layer.scale_.data
    let num := t.num
    if num = 0 then ⟨some .divByZero, bottom, layer⟩ else
    let dim := t.count / t.num
    let dimClass := b.channels
    let height := b.height
    let width := b.width
    let imgSize := height * width
    let bottom_diff := memcpy bottom_diff top_diff t.count
    let scale_data := dotPass num dim dimClass imgSize top_diff top_data scale_data
    let bottom_diff := subPass num dim dimClass imgSize scale_data bottom_diff
    let bottom_diff := caffe_mul t.count bottom_diff top_data bottom_diff
    ⟨none, { b with diff := bottom_diff } :: bs,
      { layer with scale_ := { layer.scale_ with data := scale_data } }⟩
  | _, _ => ⟨some .outOfRange, bottom, layer⟩

/-! ## The kernels with range-checked accesses

The same statements as in the kernels above, every subscript checked against
the number of elements of the buffer it goes into: `none` stands for an access
out of range.  A blob's `data` and `diff` hold `count()` elements. -/

/-- The loop `for (int i = 0; i < n; ++i) body` whose body may go out of
range. -/
def forLoopM {σ : Type} : Nat → (Nat → σ → Option σ) → σ → Option σ
  | 0, _, s => some s
  | n + 1, body, s => (forLoopM n body s).bind (body n)

/-- The read `buf[p]` from a buffer of `size` elements. -/
def readAt (size : Nat) (buf : Nat → α) (p : Nat) : Option α :=
  if p < size then some (buf p) else none

/-- The write `buf[p] = v` into a buffer of `size` elements. -/
def writeAt (size : Nat) (buf : Nat → α) (p : Nat) (v : α) : Option (Nat → α) :=
  if p < size then some (store buf p v) else none

/-- The call `memcpy(dst, src, sizeof(Dtype) * n)`: it touches the first `n`
elements of both buffers. -/
def memcpyChecked (dstSize srcSize : Nat) (dst src : Nat → α) (n : Nat) : Option (Nat → α) :=
  if n ≤ dstSize ∧ n ≤ srcSize then some (memcpy dst src n) else none

/-- The call `caffe_exp(n, a, y)`: it touches the first `n` elements of both
buffers. -/
def caffe_expChecked (exp : α → α) (aSize ySize n : Nat) (a y : Nat → α) : Option (Nat → α) :=
  if n ≤ aSize ∧ n ≤ ySize then some (caffe_exp exp n a y) else none

/-- The call `caffe_mul(n, a, b, y)`: it touches the first `n` elements of the
three buffers. -/
def caffe_mulChecked (aSize bSize ySize n : Nat) (a b y : Nat → α) : Option (Nat → α) :=
  if n ≤ aSize ∧ n ≤ bSize ∧ n ≤ ySize then some (caffe_mul n a b y) else none

/-- Lines 60-70 with checked accesses. -/
def maxPassChecked (bottomSize scaleSize num dim dimClass imgSize : Nat)
    (bottom_data scale_data : Nat → α) : Option (Nat → α) :=
  forLoopM num (fun i scale_data =>
    forLoopM imgSize (fun j scale_data => do
      let x ← readAt bottomSize bottom_data (i * dim + j)
      let scale_data ← writeAt scaleSize scale_data (i * imgSize + j) x
      forLoopM dimClass (fun k scale_data => do
        let m ← readAt scaleSize scale_data (i * imgSize + j)
        let x ← readAt bottomSize bottom_data (i * dim + k * imgSize + j)
        writeAt scaleSize scale_data (i * imgSize + j) (max m x))
        scale_data)
      scale_data)
    scale_data

/-- Lines 73-80 (and 138-146) with checked accesses. -/
def subPassChecked (scaleSize topSize num dim dimClass imgSize : Nat)
    (scale_data top_data : Nat → α) : Option (Nat → α) :=
  forLoopM num (fun i top_data =>
    forLoopM imgSize (fun j top_data =>
      forLoopM dimClass (fun k top_data => do
        let x ← readAt topSize top_data (i * dim + k * imgSize + j)
        let m ← readAt scaleSize scale_data (i * imgSize + j)
        writeAt topSize top_data (i * dim + k * imgSize + j) (x - m))
        top_data)
      top_data)
    top_data

/-- Lines 85-93 with checked accesses. -/
def sumPassChecked (topSize scaleSize num dim dimClass imgSize : Nat)
    (top_data scale_data : Nat → α) : Option (Nat → α) :=
  forLoopM num (fun i scale_data =>
    forLoopM imgSize (fun j scale_data => do
      let scale_data ← writeAt scaleSize scale_data (i * imgSize + j) 0
      forLoopM dimClass (fun k scale_data => do
        let s ← readAt scaleSize scale_data (i * imgSize + j)
        let x ← readAt topSize top_data (i * dim + k * imgSize + j)
        writeAt scaleSize scale_data (i * imgSize + j) (s + x))
        scale_data)
      scale_data)
    scale_data

/-- Lines 98-108 with checked accesses. -/
def divPassChecked (scaleSize topSize num dim dimClass imgSize : Nat) (multiple : α)
    (scale_data top_data : Nat → α) : Option (Nat → α) :=
  forLoopM num (fun i top_data =>
    forLoopM imgSize (fun j top_data =>
      forLoopM dimClass (fun k top_data => do
        let x ← readAt topSize top_data (i * dim + k * imgSize + j)
        let s ← readAt scaleSize scale_data (i * imgSize + j)
        let top_data ← writeAt topSize top_data (i * dim + k * imgSize + j) (x / (1 * s))
        let x ← readAt topSize top_data (i * dim + k * imgSize + j)
        writeAt topSize top_data (i * dim + k * imgSize + j) (x * multiple))
        top_data)
      top_data)
    top_data

/-- The method `Forward_cpu` with checked accesses: `bottom_data` holds
`bottom[0]->count()` elements, `top_data` holds `(*top)[0]->count()` and
`scale_data` holds `scale_.count()`. -/
def Forward_cpu_checked (exp : α → α) (layer : MultiSoftmaxLayer α)
    (bottom top : List (Blob α)) : Option (Outcome α) :=
  match bottom, top with
  | b :: _, t :: ts =>
    let bottom_data := b.data
    let top_data := t.data
    let scale_data := layer.scale_.data
    let num := b.num
    if num = 0 then some ⟨some .divByZero, top, layer⟩ else
    let dim := b.count / b.num
    let dimClass := b.channels
    let height := b.height
    let width := b.width
    let imgSize := height * width
    do
      let top_data ← memcpyChecked t.count b.count top_data bottom_data b.count
      let scale_data ← maxPassChecked b.count layer.scale_.count num dim dimClass imgSize
        bottom_data scale_data
      let top_data ← subPassChecked layer.scale_.count t.count num dim dimClass imgSize
        scale_data top_data
      let top_data ← caffe_expChecked exp t.count t.count (num * dim) top_data top_data
      let scale_data ← sumPassChecked t.count layer.scale_.count num dim dimClass imgSize
        top_data scale_data
      let multiple := layer.max_multiple
      let top_data ← divPassChecked layer.scale_.count t.count num dim dimClass imgSize
        multiple scale_data top_data
      pure ⟨none, { t with data := top_data } :: ts,
        { layer with scale_ := { layer.scale_ with data := scale_data } }⟩
  | _, _ => some ⟨some .outOfRange, top, layer⟩

/-- Lines 127-136 with checked accesses. -/
def dotPassChecked (topSize scaleSize num dim dimClass imgSize : Nat)
    (top_diff top_data scale_data : Nat → α) : Option (Nat → α) :=
  forLoopM num (fun i scale_data =>
    forLoopM imgSize (fun j scale_data => do
      let scale_data ← writeAt scaleSize scale_data (i * imgSize + j) 0
      forLoopM dimClass (fun k scale_data => do
        let s ← readAt scaleSize scale_data (i * imgSize + j)
        let g ← readAt topSize top_diff (i * dim + k * imgSize + j)
        let x ← readAt topSize top_data (i * dim + k * imgSize + j)
        writeAt scaleSize scale_data (i * imgSize + j) (s + g * x))
        scale_data)
      scale_data)
    scale_data

/-- The method `Backward_cpu` with checked accesses: `top_diff` and `top_data`
hold `top[0]->count()` elements, `bottom_diff` holds `(*bottom)[0]->count()`
and `scale_data` holds `scale_.count()`. -/
def Backward_cpu_checked (layer : MultiSoftmaxLayer α) (top : List (Blob α))
    (_propagate_down : List Bool) (bottom : List (Blob α)) : Option (Outcome α) :=
  match top, bottom with
  | t :: _, b :: bs =>
    let top_diff := t.diff
    let top_data := t.data
    let bottom_diff := b.diff
    let scale_data := layer.scale_.data
    let num := t.num
    if num = 0 then some ⟨some .divByZero, bottom, layer⟩ else
    let dim := t.count / t.num
    let dimClass := b.channels
    let height := b.height
    let width := b.width
    let imgSize := height * width
    do
      let bottom_diff ← memcpyChecked b.count t.count bottom_diff top_diff t.count
      let scale_data ← dotPassChecked t.count layer.scale_.count num dim dimClass imgSize
        top_diff top_data scale_data
      let bottom_diff ← subPassChecked layer.scale_.count b.count num dim dimClass imgSize
        scale_data bottom_diff
      let bottom_diff ← caffe_mulChecked b.count t.count b.count t.count
        bottom_diff top_data bottom_diff
      pure ⟨none, { b with diff := bottom_diff } :: bs,
        { layer with scale_ := { layer.scale_ with data := scale_data } }⟩
  | _, _ => some ⟨some .outOfRange, bottom, layer⟩

/-! ## Reading the outcome of a call -/

/-- The value `data[i, k, j]` of the first blob of an outcome, read in the
layout of a tensor with `C` channels and `H * W` positions; `none` when the
call failed. -/
def outData (r : Outcome α) (C H W i k j : Nat) : Option α :=
  match r.failure, r.blobs with
  | none, t :: _ => some (t.data (offset C H W i k j))
  | _, _ => none

/-- The gradient `diff[i, k, j]` of the first blob of an outcome; `none` when
the call failed. -/
def outDiff (r : Outcome α) (C H W i k j : Nat) : Option α :=
  match r.failure, r.blobs with
  | none, t :: _ => some (t.diff (offset C H W i k j))
  | _, _ => none

/-- The scratch value `scale_data[i*imgSize + j]` of an outcome; `none` when
the call failed. -/
def outScale (r : Outcome α) (H W i j : Nat) : Option α :=
  match r.failure with
  | none => some (r.layer.scale_.data (scaleOffset H W i j))
  | some _ => none

/-! ## The mathematical softmax the kernels are compared with -/

/-- The maximum of `x 0, ..., x (C-1)`, for `C ≥ 1`. -/
def channelMax (x : Nat → α) (C : Nat) (hC : 0 < C) : α :=
  (Finset.range C).sup' ⟨0, Finset.mem_range.2 hC⟩ x

/-- The channel values `data[i, ·, j]` of a blob at one position. -/
def Blob.channelsAt (b : Blob α) (i j : Nat) : Nat → α :=
  fun k => b.dataAt i k j

/-! ## Small concrete inputs -/

/-- The buffer holding the listed values at offsets `0, 1, ...` and zero
beyond them. -/
def bufferOf (l : List α) : Nat → α :=
  fun p => l.getD p 0

/-- The blob of shape `(n, c, h, w)` holding the listed data and diff. -/
def blobOf (n c h w : Nat) (data diff : List α) : Blob α :=
  ⟨n, c, h, w, bufferOf data, bufferOf diff⟩

/-- The layer configured with `max_multiple = multiple`, its member blobs not
yet shaped. -/
def layerOf (multiple : α) : MultiSoftmaxLayer α :=
  ⟨multiple, blobOf 0 0 0 0 [] [], blobOf 0 0 0 0 [] []⟩

end Kernels

/-! ## Loops over disjoint regions of a buffer -/

section LoopLemmas

variable {α : Type}

theorem store_same (buf : Nat → α) (p : Nat) (v : α) : store buf p v p = v := by
  simp [store]

theorem store_other (buf : Nat → α) (p q : Nat) (v : α) (h : q ≠ p) :
    store buf p v q = buf q := by
  simp [store, h]

theorem store_store (buf : Nat → α) (p : Nat) (v w : α) :
    store (store buf p v) p w = store buf p w := by
  funext q
  by_cases h : q = p <;> simp [store, h]

/-- A loop whose iterations stay out of `p` leaves `p` as it was. -/
theorem forLoop_frame {body : Nat → (Nat → α) → (Nat → α)} {A : Nat → Nat → Prop}
    (hframe : ∀ i s p, ¬ A i p → body i s p = s p) (n : Nat) (s : Nat → α) (p : Nat)
    (hp : ∀ i, i < n → ¬ A i p) : forLoop n body s p = s p := by
  induction n with
  | zero => rfl
  | succ n ih =>
    show body n (forLoop n body s) p = s p
    rw [hframe n _ p (hp n (Nat.lt_succ_self n))]
    exact ih (fun i hi => hp i (Nat.lt_succ_of_lt hi))

/-- A loop whose iterations own pairwise disjoint regions, each iteration
reading only its own region: on region `i` the loop does what iteration `i`
alone does. -/
theorem forLoop_hit {body : Nat → (Nat → α) → (Nat → α)} {A : Nat → Nat → Prop} {n : Nat}
    (hframe : ∀ i s p, ¬ A i p → body i s p = s p)
    (hlocal : ∀ i, i < n → ∀ s s' : Nat → α, (∀ p, A i p → s p = s' p) →
      ∀ p, A i p → body i s p = body i s' p)
    (hdisj : ∀ i i' p, i < n → i' < n → A i p → A i' p → i = i')
    (s : Nat → α) (i p : Nat) (hi : i < n) (hp : A i p) :
    forLoop n body s p = body i s p := by
  induction n with
  | zero => exact absurd hi (Nat.not_lt_zero i)
  | succ n ih =>
    show body n (forLoop n body s) p = body i s p
    rcases Nat.lt_succ_iff_lt_or_eq.1 hi with hlt | heq
    · have hnp : ¬ A n p := fun h =>
        absurd (hdisj i n p hi (Nat.lt_succ_self n) hp h) (Nat.ne_of_lt hlt)
      rw [hframe n _ p hnp]
      exact ih (fun i hi => hlocal i (Nat.lt_succ_of_lt hi))
        (fun i i' p hi hi' => hdisj i i' p (Nat.lt_succ_of_lt hi) (Nat.lt_succ_of_lt hi')) hlt
    · subst heq
      refine hlocal i hi _ _ (fun q hq => ?_) p hp
      refine forLoop_frame hframe i s q (fun i' hi' h => ?_)
      exact absurd (hdisj i' i q (Nat.lt_succ_of_lt hi') hi h hq) (Nat.ne_of_lt hi')

/-- A loop that rewrites one cell `c` from its own value folds over that cell. -/
theorem forLoop_cell (f : Nat → α → α) (c : Nat) (n : Nat) (s : Nat → α) :
    forLoop n (fun k s => store s c (f k (s c))) s
      = store s c (forLoop n f (s c)) := by
  induction n with
  | zero => funext q; by_cases h : q = c <;> simp [forLoop, store, h]
  | succ n ih =>
    show store (forLoop n _ s) c (f n (forLoop n _ s c)) = store s c (f n (forLoop n f (s c)))
    rw [ih]
    funext q; by_cases h : q = c <;> simp [store, h]

end LoopLemmas


/-! ## Index arithmetic -/

theorem mul_add_inj {m a r a' r' : Nat} (hr : r < m) (hr' : r' < m)
    (h : a * m + r = a' * m + r') : a = a' ∧ r = r' := by
  have ha : a = a' := by
    rcases Nat.lt_trichotomy a a' with hlt | heq | hgt
    · have : (a + 1) * m ≤ a' * m := Nat.mul_le_mul_right m hlt
      rw [Nat.add_mul] at this
      omega
    · exact heq
    · have : (a' + 1) * m ≤ a * m := Nat.mul_le_mul_right m hgt
      rw [Nat.add_mul] at this
      omega
  subst ha
  exact ⟨rfl, by omega⟩

theorem inner_lt_dim {dim dimClass imgSize k j : Nat} (hdim : dimClass * imgSize ≤ dim)
    (hk : k < dimClass) (hj : j < imgSize) : k * imgSize + j < dim := by
  have : (k + 1) * imgSize ≤ dimClass * imgSize := Nat.mul_le_mul_right imgSize hk
  rw [Nat.add_mul] at this
  omega

theorem index_inj {dim dimClass imgSize i k j i' k' j' : Nat} (hdim : dimClass * imgSize ≤ dim)
    (hk : k < dimClass) (hj : j < imgSize) (hk' : k' < dimClass) (hj' : j' < imgSize)
    (h : i * dim + k * imgSize + j = i' * dim + k' * imgSize + j') :
    i = i' ∧ k = k' ∧ j = j' := by
  have h1 := inner_lt_dim hdim hk hj
  have h2 := inner_lt_dim hdim hk' hj'
  have h3 : i * dim + (k * imgSize + j) = i' * dim + (k' * imgSize + j') := by omega
  obtain ⟨hi, hr⟩ := mul_add_inj h1 h2 h3
  obtain ⟨hk, hj⟩ := mul_add_inj hj hj' hr
  exact ⟨hi, hk, hj⟩

theorem dim_eq {α : Type} (b : Blob α) (hN : b.num ≠ 0) :
    b.count / b.num = b.channels * (b.height * b.width) := by
  unfold Blob.count
  rw [Nat.mul_assoc, Nat.mul_assoc, Nat.mul_div_cancel_left _ (Nat.pos_of_ne_zero hN)]

/-! ## The two loop nests of the kernels -/

section Nests

variable {α : Type}

/-- A reduction nest: at every position `(i, j)` the cell `i*imgSize + j` is
initialised and then folded over the channels. -/
theorem reduction_nest (num imgSize dimClass : Nat) (init : Nat → Nat → α)
    (f : Nat → Nat → Nat → α → α) (s0 : Nat → α) (i j : Nat) (hi : i < num) (hj : j < imgSize) :
    forLoop num (fun i s =>
      forLoop imgSize (fun j s =>
        forLoop dimClass (fun k s => store s (i * imgSize + j) (f i j k (s (i * imgSize + j))))
          (store s (i * imgSize + j) (init i j))) s) s0 (i * imgSize + j)
      = forLoop dimClass (f i j) (init i j) := by
  -- the body at one position
  have hB : ∀ i j (s : Nat → α),
      forLoop dimClass (fun k s => store s (i * imgSize + j) (f i j k (s (i * imgSize + j))))
          (store s (i * imgSize + j) (init i j))
        = store s (i * imgSize + j) (forLoop dimClass (f i j) (init i j)) := by
    intro i j s
    rw [forLoop_cell (f i j) (i * imgSize + j) dimClass]
    funext q
    by_cases h : q = i * imgSize + j <;> simp [store, h]
  simp only [hB]
  -- the loop over the positions of one batch element
  have hM_frame : ∀ i (s : Nat → α) p, (∀ j, j < imgSize → ¬ p = i * imgSize + j) →
      forLoop imgSize (fun j s => store s (i * imgSize + j) (forLoop dimClass (f i j) (init i j)))
        s p = s p := by
    intro i s p hp
    exact forLoop_frame (A := fun j p => p = i * imgSize + j)
      (fun j s p h => store_other _ _ _ _ h) imgSize s p hp
  have hM_hit : ∀ i (s : Nat → α) j, j < imgSize →
      forLoop imgSize (fun j s => store s (i * imgSize + j) (forLoop dimClass (f i j) (init i j)))
        s (i * imgSize + j) = forLoop dimClass (f i j) (init i j) := by
    intro i s j hj
    rw [forLoop_hit (A := fun j p => p = i * imgSize + j)
      (fun j s p h => store_other _ _ _ _ h)
      (fun j _ s s' _ p hp => by subst hp; simp [store])
      (fun j j' p _ _ h h' => by omega) s j (i * imgSize + j) hj rfl]
    exact store_same _ _ _
  rw [forLoop_hit (A := fun i p => ∃ j, j < imgSize ∧ p = i * imgSize + j)
    (fun i s p h => hM_frame i s p (fun j hj hp => h ⟨j, hj, hp⟩))
    (fun i _ s s' _ p hp => by
      obtain ⟨j, hj, rfl⟩ := hp
      rw [hM_hit i s j hj, hM_hit i s' j hj])
    (fun i i' p _ _ h h' => by
      obtain ⟨j, hj, rfl⟩ := h
      obtain ⟨j', hj', h'⟩ := h'
      exact (mul_add_inj hj hj' h').1)
    s0 i (i * imgSize + j) hi ⟨j, hj, rfl⟩]
  exact hM_hit i s0 j hj

/-- An element-wise nest: every element `(i, k, j)` is rewritten once, from its
own value. -/
theorem elementwise_nest (num dim dimClass imgSize : Nat) (hdim : dimClass * imgSize ≤ dim)
    (g : Nat → Nat → Nat → α → α) (t0 : Nat → α) (i k j : Nat)
    (hi : i < num) (hk : k < dimClass) (hj : j < imgSize) :
    forLoop num (fun i t =>
      forLoop imgSize (fun j t =>
        forLoop dimClass (fun k t =>
          store t (i * dim + k * imgSize + j) (g i j k (t (i * dim + k * imgSize + j)))) t) t)
      t0 (i * dim + k * imgSize + j)
      = g i j k (t0 (i * dim + k * imgSize + j)) := by
  -- the loop over the channels of one position
  have hK_frame : ∀ i j (t : Nat → α) p, (∀ k, k < dimClass → ¬ p = i * dim + k * imgSize + j) →
      forLoop dimClass (fun k t =>
        store t (i * dim + k * imgSize + j) (g i j k (t (i * dim + k * imgSize + j)))) t p
        = t p := by
    intro i j t p hp
    exact forLoop_frame (A := fun k p => p = i * dim + k * imgSize + j)
      (fun k s p h => store_other _ _ _ _ h) dimClass t p hp
  have hK_hit : ∀ i j (t : Nat → α) k, j < imgSize → k < dimClass →
      forLoop dimClass (fun k t =>
        store t (i * dim + k * imgSize + j) (g i j k (t (i * dim + k * imgSize + j)))) t
        (i * dim + k * imgSize + j) = g i j k (t (i * dim + k * imgSize + j)) := by
    intro i j t k hj hk
    rw [forLoop_hit (A := fun k p => p = i * dim + k * imgSize + j)
      (fun k s p h => store_other _ _ _ _ h)
      (fun k _ s s' hs p hp => by subst hp; simp [store, hs])
      (fun k k' p hk hk' h h' => (index_inj hdim hk hj hk' hj (h.symm.trans h')).2.1)
      t k (i * dim + k * imgSize + j) hk rfl]
    exact store_same _ _ _
  -- the loop over the positions of one batch element
  have hJ_frame : ∀ i (t : Nat → α) p,
      (∀ j, j < imgSize → ∀ k, k < dimClass → ¬ p = i * dim + k * imgSize + j) →
      forLoop imgSize (fun j t => forLoop dimClass (fun k t =>
        store t (i * dim + k * imgSize + j) (g i j k (t (i * dim + k * imgSize + j)))) t) t p
        = t p := by
    intro i t p hp
    exact forLoop_frame (A := fun j p => ∃ k, k < dimClass ∧ p = i * dim + k * imgSize + j)
      (fun j s p h => hK_frame i j s p (fun k hk hp => h ⟨k, hk, hp⟩)) imgSize t p
      (fun j hj h => by obtain ⟨k, hk, hp'⟩ := h; exact hp j hj k hk hp')
  have hJ_hit : ∀ i (t : Nat → α) j k, j < imgSize → k < dimClass →
      forLoop imgSize (fun j t => forLoop dimClass (fun k t =>
        store t (i * dim + k * imgSize + j) (g i j k (t (i * dim + k * imgSize + j)))) t) t
        (i * dim + k * imgSize + j) = g i j k (t (i * dim + k * imgSize + j)) := by
    intro i t j k hj hk
    rw [forLoop_hit (A := fun j p => ∃ k, k < dimClass ∧ p = i * dim + k * imgSize + j)
      (fun j s p h => hK_frame i j s p (fun k hk hp => h ⟨k, hk, hp⟩))
      (fun j hj s s' hs p hp => by
        obtain ⟨k, hk, rfl⟩ := hp
        rw [hK_hit i j s k hj hk, hK_hit i j s' k hj hk, hs _ ⟨k, hk, rfl⟩])
      (fun j j' p hj hj' h h' => by
        obtain ⟨k, hk, rfl⟩ := h
        obtain ⟨k', hk', h'⟩ := h'
        exact (index_inj hdim hk hj hk' hj' h').2.2)
      t j (i * dim + k * imgSize + j) hj ⟨k, hk, rfl⟩]
    exact hK_hit i j t k hj hk
  rw [forLoop_hit (A := fun i p => ∃ j, j < imgSize ∧ ∃ k, k < dimClass ∧
      p = i * dim + k * imgSize + j)
    (fun i s p h => hJ_frame i s p (fun j hj k hk hp => h ⟨j, hj, k, hk, hp⟩))
    (fun i _ s s' hs p hp => by
      obtain ⟨j, hj, k, hk, rfl⟩ := hp
      rw [hJ_hit i s j k hj hk, hJ_hit i s' j k hj hk, hs _ ⟨j, hj, k, hk, rfl⟩])
    (fun i i' p _ _ h h' => by
      obtain ⟨j, hj, k, hk, rfl⟩ := h
      obtain ⟨j', hj', k', hk', h'⟩ := h'
      exact (index_inj hdim hk hj hk' hj' h').1)
    t0 i (i * dim + k * imgSize + j) hi ⟨j, hj, k, hk, rfl⟩]
  exact hJ_hit i t0 j k hj hk

end Nests


/-! ## What each pass leaves in its buffer -/

section Passes

variable {α : Type} [LinearOrderedField α]

theorem maxPass_at (num dim dimClass imgSize : Nat) (bottom_data scale_data : Nat → α)
    (i j : Nat) (hi : i < num) (hj : j < imgSize) :
    maxPass num dim dimClass imgSize bottom_data scale_data (i * imgSize + j)
      = forLoop dimClass (fun k v => max v (bottom_data (i * dim + k * imgSize + j)))
          (bottom_data (i * dim + j)) := by
  unfold maxPass
  exact reduction_nest num imgSize dimClass (fun i j => bottom_data (i * dim + j))
    (fun i j k v => max v (bottom_data (i * dim + k * imgSize + j))) scale_data i j hi hj

theorem sumPass_at (num dim dimClass imgSize : Nat) (top_data scale_data : Nat → α)
    (i j : Nat) (hi : i < num) (hj : j < imgSize) :
    sumPass num dim dimClass imgSize top_data scale_data (i * imgSize + j)
      = forLoop dimClass (fun k v => v + top_data (i * dim + k * imgSize + j)) 0 := by
  unfold sumPass
  exact reduction_nest num imgSize dimClass (fun _ _ => 0)
    (fun i j k v => v + top_data (i * dim + k * imgSize + j)) scale_data i j hi hj

theorem dotPass_at (num dim dimClass imgSize : Nat) (top_diff top_data scale_data : Nat → α)
    (i j : Nat) (hi : i < num) (hj : j < imgSize) :
    dotPass num dim dimClass imgSize top_diff top_data scale_data (i * imgSize + j)
      = forLoop dimClass (fun k v => v + top_diff (i * dim + k * imgSize + j)
          * top_data (i * dim + k * imgSize + j)) 0 := by
  unfold dotPass
  exact reduction_nest num imgSize dimClass (fun _ _ => 0)
    (fun i j k v => v + top_diff (i * dim + k * imgSize + j)
      * top_data (i * dim + k * imgSize + j)) scale_data i j hi hj

theorem subPass_at (num dim dimClass imgSize : Nat) (hdim : dimClass * imgSize ≤ dim)
    (scale_data top_data : Nat → α) (i k j : Nat)
    (hi : i < num) (hk : k < dimClass) (hj : j < imgSize) :
    subPass num dim dimClass imgSize scale_data top_data (i * dim + k * imgSize + j)
      = top_data (i * dim + k * imgSize + j) - scale_data (i * imgSize + j) := by
  unfold subPass
  exact elementwise_nest num dim dimClass imgSize hdim
    (fun i j _ v => v - scale_data (i * imgSize + j)) top_data i k j hi hk hj

theorem divPass_at (num dim dimClass imgSize : Nat) (hdim : dimClass * imgSize ≤ dim)
    (multiple : α) (scale_data top_data : Nat → α) (i k j : Nat)
    (hi : i < num) (hk : k < dimClass) (hj : j < imgSize) :
    divPass num dim dimClass imgSize multiple scale_data top_data (i * dim + k * imgSize + j)
      = top_data (i * dim + k * imgSize + j) / (1 * scale_data (i * imgSize + j)) * multiple := by
  unfold divPass
  simp only [store_same, store_store]
  exact elementwise_nest num dim dimClass imgSize hdim
    (fun i j _ v => v / (1 * scale_data (i * imgSize + j)) * multiple) top_data i k j hi hk hj

/-- The running sum of a channel loop is the sum over the channels. -/
theorem forLoop_add (n : Nat) (f : Nat → α) :
    forLoop n (fun k v => v + f k) 0 = ∑ k in Finset.range n, f k := by
  induction n with
  | zero => rfl
  | succ n ih =>
    show forLoop n (fun k v => v + f k) 0 + f n = _
    rw [ih, Finset.sum_range_succ]

/-- The running maximum of a channel loop started at channel 0 is the maximum
over the channels. -/
theorem forLoop_max (n : Nat) (f : Nat → α) (h : (Finset.range n).Nonempty) :
    forLoop n (fun k v => max v (f k)) (f 0) = (Finset.range n).sup' h f := by
  induction n with
  | zero => simp at h
  | succ n ih =>
    show max (forLoop n (fun k v => max v (f k)) (f 0)) (f n) = _
    rcases Nat.eq_zero_or_pos n with h0 | hpos
    · subst h0
      simp [forLoop]
    · have hn : (Finset.range n).Nonempty := Finset.nonempty_range_iff.2 (Nat.pos_iff_ne_zero.1 hpos)
      rw [ih hn]
      simp only [Finset.range_succ]
      rw [Finset.sup'_insert (H := hn), max_comm]

theorem forLoop_congr {σ : Type} (n : Nat) (f g : Nat → σ → σ) (s : σ)
    (h : ∀ k, k < n → ∀ v, f k v = g k v) : forLoop n f s = forLoop n g s := by
  induction n with
  | zero => rfl
  | succ n ih =>
    show f n (forLoop n f s) = g n (forLoop n g s)
    rw [ih (fun k hk => h k (Nat.lt_succ_of_lt hk)), h n (Nat.lt_succ_self n)]

end Passes

/-! ## The forward kernel, element by element -/

section ForwardGeneric

variable {α : Type} [LinearOrderedField α]

theorem offset_eq (C H W i k j : Nat) :
    offset C H W i k j = i * (C * (H * W)) + k * (H * W) + j := by
  unfold offset
  rw [Nat.mul_assoc]

theorem offset_lt {N C H W i k j : Nat} (hi : i < N) (hk : k < C) (hj : j < H * W) :
    offset C H W i k j < N * (C * (H * W)) := by
  rw [offset_eq]
  have h1 := inner_lt_dim (Nat.le_refl (C * (H * W))) hk hj
  have h2 : (i + 1) * (C * (H * W)) ≤ N * (C * (H * W)) := Nat.mul_le_mul_right _ hi
  rw [Nat.add_mul] at h2
  omega

/-- Every element of a successful forward run, in terms of the running maximum
and the running sum of the channel loops. -/
theorem Forward_cpu_outData (exp : α → α) (layer : MultiSoftmaxLayer α) (b t : Blob α)
    (bs ts : List (Blob α)) (i k j : Nat)
    (hi : i < b.num) (hk : k < b.channels) (hj : j < b.height * b.width) :
    outData (Forward_cpu exp layer (b :: bs) (t :: ts)) b.channels b.height b.width i k j
      = some (exp (b.dataAt i k j
            - channelMax (b.channelsAt i j) b.channels (Nat.zero_lt_of_lt hk))
          / (∑ c in Finset.range b.channels, exp (b.dataAt i c j
            - channelMax (b.channelsAt i j) b.channels (Nat.zero_lt_of_lt hk)))
          * layer.max_multiple) := by
  have hN : b.num ≠ 0 := Nat.not_eq_zero_of_lt hi
  have hC : 0 < b.channels := Nat.zero_lt_of_lt hk
  have hcount : b.count = b.num * (b.channels * (b.height * b.width)) := by
    unfold Blob.count
    rw [Nat.mul_assoc, Nat.mul_assoc]
  have hlt : ∀ c, c < b.channels →
      i * (b.channels * (b.height * b.width)) + c * (b.height * b.width) + j
        < b.num * (b.channels * (b.height * b.width)) := by
    intro c hc
    have := offset_lt hi hc hj
    rwa [offset_eq] at this
  -- the maximum left by the first pass
  have hmax : maxPass b.num (b.channels * (b.height * b.width)) b.channels
      (b.height * b.width) b.data layer.scale_.data (i * (b.height * b.width) + j)
      = channelMax (b.channelsAt i j) b.channels hC := by
    rw [maxPass_at _ _ _ _ _ _ i j hi hj]
    have h0 : b.data (i * (b.channels * (b.height * b.width)) + j) = b.channelsAt i j 0 := by
      simp [Blob.channelsAt, Blob.dataAt, offset_eq]
    rw [h0, forLoop_congr b.channels _ (fun c v => max v (b.channelsAt i j c)) _
      (fun c _ v => by simp [Blob.channelsAt, Blob.dataAt, offset_eq])]
    exact forLoop_max b.channels (b.channelsAt i j) _
  -- an element after the subtraction and the exponentiation
  have hexp : ∀ c, c < b.channels →
      caffe_exp exp (b.num * (b.channels * (b.height * b.width)))
        (subPass b.num (b.channels * (b.height * b.width)) b.channels (b.height * b.width)
          (maxPass b.num (b.channels * (b.height * b.width)) b.channels (b.height * b.width)
            b.data layer.scale_.data) (memcpy t.data b.data b.count))
        (subPass b.num (b.channels * (b.height * b.width)) b.channels (b.height * b.width)
          (maxPass b.num (b.channels * (b.height * b.width)) b.channels (b.height * b.width)
            b.data layer.scale_.data) (memcpy t.data b.data b.count))
        (i * (b.channels * (b.height * b.width)) + c * (b.height * b.width) + j)
      = exp (b.dataAt i c j - channelMax (b.channelsAt i j) b.channels hC) := by
    intro c hc
    simp only [caffe_exp, if_pos (hlt c hc)]
    rw [subPass_at _ _ _ _ (Nat.le_refl _) _ _ i c j hi hc hj, hmax]
    simp only [memcpy, hcount, if_pos (hlt c hc), Blob.dataAt, offset_eq]
  simp only [Forward_cpu, if_neg hN, outData, dim_eq b hN, offset_eq]
  rw [divPass_at _ _ _ _ (Nat.le_refl _) _ _ _ i k j hi hk hj, hexp k hk,
    sumPass_at _ _ _ _ _ _ i j hi hj, forLoop_add, one_mul,
    Finset.sum_congr rfl (fun c hc => hexp c (Finset.mem_range.1 hc))]

end ForwardGeneric

/-! ## The forward kernel over the reals -/

section ForwardReal

/-- The sum of the exponentials over a non-empty channel range is positive. -/
theorem sum_exp_pos (x : Nat → ℝ) (C : Nat) (hC : 0 < C) :
    0 < ∑ c in Finset.range C, Real.exp (x c) :=
  Finset.sum_pos (fun _ _ => Real.exp_pos _) ⟨0, Finset.mem_range.2 hC⟩

/-- Subtracting a common value before exponentiating cancels in the quotient. -/
theorem softmax_shift (x : Nat → ℝ) (C k : Nat) (hC : 0 < C) (m : ℝ) :
    Real.exp (x k - m) / (∑ c in Finset.range C, Real.exp (x c - m))
      = Real.exp (x k) / ∑ c in Finset.range C, Real.exp (x c) := by
  have hs := sum_exp_pos x C hC
  have hm := Real.exp_pos m
  simp only [Real.exp_sub]
  rw [← Finset.sum_div]
  field_simp

/-- Every element of a forward run over the reals, as the plain softmax. -/
theorem Forward_cpu_softmax (layer : MultiSoftmaxLayer ℝ) (b t : Blob ℝ)
    (bs ts : List (Blob ℝ)) (i k j : Nat)
    (hi : i < b.num) (hk : k < b.channels) (hj : j < b.height * b.width) :
    outData (Forward_cpu Real.exp layer (b :: bs) (t :: ts)) b.channels b.height b.width i k j
      = some (Real.exp (b.dataAt i k j)
          / (∑ c in Finset.range b.channels, Real.exp (b.dataAt i c j))
          * layer.max_multiple) := by
  rw [Forward_cpu_outData Real.exp layer b t bs ts i k j hi hk hj,
    softmax_shift (fun c => b.dataAt i c j) b.channels k (Nat.zero_lt_of_lt hk)]

end ForwardReal

/-! ## The claims on the forward kernel -/

/-- C1: over the reals, for an input of shape (N,C,H,W) with C >= 1, any
Multiplier and every valid (i,k,j), Forward_cpu returns and
output[i,k,j] = (exp(input[i,k,j] - m) / s) * Multiplier, where m is the maximum
over the channels of input[i,·,j] and s the sum over the channels of
exp(input[i,·,j] - m). -/
theorem Forward_cpu_normalized_exponential (layer : MultiSoftmaxLayer ℝ) (b t : Blob ℝ)
    (i k j : Nat) (hC : 1 ≤ b.channels)
    (hi : i < b.num) (hk : k < b.channels) (hj : j < b.height * b.width) :
    outData (Forward_cpu Real.exp layer [b] [t]) b.channels b.height b.width i k j
      = some (Real.exp (b.dataAt i k j - channelMax (b.channelsAt i j) b.channels hC)
          / (∑ c in Finset.range b.channels,
              Real.exp (b.dataAt i c j - channelMax (b.channelsAt i j) b.channels hC))
          * layer.max_multiple) :=
  Forward_cpu_outData Real.exp layer b t [] [] i k j hi hk hj

/-- C2: over the reals, for an input of shape (N,C,H,W) with C >= 1, any
Multiplier and every valid (i,j), Forward_cpu returns and the outputs
output[i,k,j] over all channels k sum to Multiplier. -/
theorem Forward_cpu_sum_eq_multiplier (layer : MultiSoftmaxLayer ℝ) (b t : Blob ℝ)
    (i j : Nat) (hC : 1 ≤ b.channels) (hi : i < b.num) (hj : j < b.height * b.width) :
    ∃ out : Nat → ℝ,
      (∀ k, k < b.channels →
        outData (Forward_cpu Real.exp layer [b] [t]) b.channels b.height b.width i k j
          = some (out k)) ∧
      ∑ k in Finset.range b.channels, out k = layer.max_multiple := by
  refine ⟨fun k => Real.exp (b.dataAt i k j)
    / (∑ c in Finset.range b.channels, Real.exp (b.dataAt i c j)) * layer.max_multiple,
    fun k hk => Forward_cpu_softmax layer b t [] [] i k j hi hk hj, ?_⟩
  have hs := sum_exp_pos (fun c => b.dataAt i c j) b.channels hC
  rw [← Finset.sum_mul, ← Finset.sum_div, div_self (ne_of_gt hs), one_mul]

/-- C8: over the reals, for C >= 1, any Multiplier and every valid (i,k,j),
the output of the max-subtracted Forward_cpu is the naive softmax
Multiplier * exp(input[i,k,j]) / (sum over the channels of exp(input[i,·,j])). -/
theorem Forward_cpu_eq_naive_softmax (layer : MultiSoftmaxLayer ℝ) (b t : Blob ℝ)
    (i k j : Nat) (hi : i < b.num) (hk : k < b.channels) (hj : j < b.height * b.width) :
    outData (Forward_cpu Real.exp layer [b] [t]) b.channels b.height b.width i k j
      = some (layer.max_multiple * Real.exp (b.dataAt i k j)
          / (∑ c in Finset.range b.channels, Real.exp (b.dataAt i c j))) := by
  rw [Forward_cpu_softmax layer b t [] [] i k j hi hk hj]
  congr 1
  ring

/-- C1 at N=1, C=2, H=W=1, input [1, 2], Multiplier 1, element (0,1,0). -/
theorem Forward_cpu_normalized_exponential_witness :
    outData (Forward_cpu Real.exp (layerOf 1) [blobOf 1 2 1 1 [1, 2] []] [blobOf 1 2 1 1 [] []])
        2 1 1 0 1 0
      = some (Real.exp ((blobOf 1 2 1 1 [1, 2] [] : Blob ℝ).dataAt 0 1 0
            - channelMax ((blobOf 1 2 1 1 [1, 2] [] : Blob ℝ).channelsAt 0 0) 2 (by decide))
          / (∑ c in Finset.range 2, Real.exp ((blobOf 1 2 1 1 [1, 2] [] : Blob ℝ).dataAt 0 c 0
            - channelMax ((blobOf 1 2 1 1 [1, 2] [] : Blob ℝ).channelsAt 0 0) 2 (by decide)))
          * 1) :=
  Forward_cpu_normalized_exponential (layerOf 1) (blobOf 1 2 1 1 [1, 2] [])
    (blobOf 1 2 1 1 [] []) 0 1 0 (by decide) (by decide) (by decide) (by decide)

/-- C2 at N=1, C=2, H=W=1, input [1, 2], Multiplier 4, position (0,0). -/
theorem Forward_cpu_sum_eq_multiplier_witness :
    ∃ out : Nat → ℝ,
      (∀ k, k < 2 →
        outData (Forward_cpu Real.exp (layerOf 4) [blobOf 1 2 1 1 [1, 2] []]
          [blobOf 1 2 1 1 [] []]) 2 1 1 0 k 0 = some (out k)) ∧
      ∑ k in Finset.range 2, out k = 4 :=
  Forward_cpu_sum_eq_multiplier (layerOf 4) (blobOf 1 2 1 1 [1, 2] [])
    (blobOf 1 2 1 1 [] []) 0 0 (by decide) (by decide) (by decide)

/-- C8 at N=1, C=2, H=W=1, input [1, 2], Multiplier 4, element (0,0,0). -/
theorem Forward_cpu_eq_naive_softmax_witness :
    outData (Forward_cpu Real.exp (layerOf 4) [blobOf 1 2 1 1 [1, 2] []] [blobOf 1 2 1 1 [] []])
        2 1 1 0 0 0
      = some (4 * Real.exp ((blobOf 1 2 1 1 [1, 2] [] : Blob ℝ).dataAt 0 0 0)
          / (∑ c in Finset.range 2, Real.exp ((blobOf 1 2 1 1 [1, 2] [] : Blob ℝ).dataAt 0 c 0))) :=
  Forward_cpu_eq_naive_softmax (layerOf 4) (blobOf 1 2 1 1 [1, 2] [])
    (blobOf 1 2 1 1 [] []) 0 0 0 (by decide) (by decide) (by decide)

/-- C6 as stated fails: with Multiplier = -1 and the one-element input [0],
Forward_cpu returns the output -1, which is negative. -/
theorem Forward_cpu_negative_output :
    ∃ v : ℝ,
      outData (Forward_cpu Real.exp (layerOf (-1)) [blobOf 1 1 1 1 [0] []]
        [blobOf 1 1 1 1 [] []]) 1 1 1 0 0 0 = some v ∧ v < 0 := by
  refine ⟨-1, ?_, by norm_num⟩
  have h := Forward_cpu_softmax (layerOf (-1)) (blobOf 1 1 1 1 [0] []) (blobOf 1 1 1 1 [] [])
    [] [] 0 0 0 (by decide) (by decide) (by decide)
  rw [show (blobOf 1 1 1 1 [0] [] : Blob ℝ).channels = 1 from rfl,
    show (blobOf 1 1 1 1 [0] [] : Blob ℝ).height = 1 from rfl,
    show (blobOf 1 1 1 1 [0] [] : Blob ℝ).width = 1 from rfl] at h
  rw [h]
  simp [layerOf]

/-- C6, amended: over the reals, when the configured Multiplier is
non-negative, for every input and every valid (i,k,j) Forward_cpu returns and
output[i,k,j] >= 0. -/
theorem Forward_cpu_nonneg (layer : MultiSoftmaxLayer ℝ) (b t : Blob ℝ)
    (hM : 0 ≤ layer.max_multiple) (i k j : Nat)
    (hi : i < b.num) (hk : k < b.channels) (hj : j < b.height * b.width) :
    ∃ v : ℝ,
      outData (Forward_cpu Real.exp layer [b] [t]) b.channels b.height b.width i k j = some v
        ∧ 0 ≤ v := by
  refine ⟨_, Forward_cpu_softmax layer b t [] [] i k j hi hk hj, ?_⟩
  have hs := sum_exp_pos (fun c => b.dataAt i c j) b.channels (Nat.zero_lt_of_lt hk)
  exact mul_nonneg (div_nonneg (Real.exp_pos _).le hs.le) hM

/-- C6 amended, at N=1, C=2, H=W=1, input [1, 2], Multiplier 4, element (0,1,0). -/
theorem Forward_cpu_nonneg_witness :
    ∃ v : ℝ,
      outData (Forward_cpu Real.exp (layerOf 4) [blobOf 1 2 1 1 [1, 2] []]
        [blobOf 1 2 1 1 [] []]) 2 1 1 0 1 0 = some v ∧ 0 ≤ v :=
  Forward_cpu_nonneg (layerOf 4) (blobOf 1 2 1 1 [1, 2] []) (blobOf 1 2 1 1 [] [])
    (by norm_num [layerOf]) 0 1 0 (by decide) (by decide) (by decide)

/-- C7: over the reals, for C >= 1 and any Multiplier, if the input x' has the
shape of x and x'[i,k,j] = x[i,k,j] + c[i,j] for all channels k, then at every
valid element Forward_cpu returns on both inputs and the two outputs are the
same. -/
theorem Forward_cpu_shift_invariant (layer : MultiSoftmaxLayer ℝ) (b b' t : Blob ℝ)
    (c : Nat → Nat → ℝ)
    (hnum : b'.num = b.num) (hch : b'.channels = b.channels)
    (hh : b'.height = b.height) (hw : b'.width = b.width)
    (hshift : ∀ i k j, i < b.num → k < b.channels → j < b.height * b.width →
      b'.dataAt i k j = b.dataAt i k j + c i j)
    (i k j : Nat) (hi : i < b.num) (hk : k < b.channels) (hj : j < b.height * b.width) :
    ∃ v : ℝ,
      outData (Forward_cpu Real.exp layer [b'] [t]) b.channels b.height b.width i k j = some v ∧
      outData (Forward_cpu Real.exp layer [b] [t]) b.channels b.height b.width i k j = some v := by
  refine ⟨_, ?_, Forward_cpu_softmax layer b t [] [] i k j hi hk hj⟩
  have h' := Forward_cpu_softmax layer b' t [] [] i k j (hnum ▸ hi) (hch ▸ hk)
    (by rw [hh, hw]; exact hj)
  rw [hch, hh, hw] at h'
  rw [h', hshift i k j hi hk hj,
    Finset.sum_congr rfl (fun l hl => by rw [hshift i l j hi (Finset.mem_range.1 hl) hj])]
  have hs := sum_exp_pos (fun l => b.dataAt i l j) b.channels (Nat.zero_lt_of_lt hk)
  have hc := Real.exp_pos (c i j)
  simp only [Real.exp_add]
  rw [← Finset.sum_mul]
  congr 2
  field_simp
  ring

/-- C7 at N=1, C=2, H=W=1: the inputs [1, 2] and [4, 5] = [1, 2] + 3 give the
same output at element (0,0,0). -/
theorem Forward_cpu_shift_invariant_witness :
    ∃ v : ℝ,
      outData (Forward_cpu Real.exp (layerOf 1) [blobOf 1 2 1 1 [4, 5] []]
        [blobOf 1 2 1 1 [] []]) 2 1 1 0 0 0 = some v ∧
      outData (Forward_cpu Real.exp (layerOf 1) [blobOf 1 2 1 1 [1, 2] []]
        [blobOf 1 2 1 1 [] []]) 2 1 1 0 0 0 = some v :=
  Forward_cpu_shift_invariant (layerOf 1) (blobOf 1 2 1 1 [1, 2] []) (blobOf 1 2 1 1 [4, 5] [])
    (blobOf 1 2 1 1 [] []) (fun _ _ => 3) rfl rfl rfl rfl
    (fun i k j hi hk hj => by
      have hi0 : i = 0 := by
        have : i < 1 := hi
        omega
      have hj0 : j = 0 := by
        have : j < 1 * 1 := hj
        omega
      have hk2 : k < 2 := hk
      subst hi0 hj0
      interval_cases k <;> norm_num [blobOf, bufferOf, Blob.dataAt, offset])
    0 0 0 (by decide) (by decide) (by decide)

/-! ## The backward kernel, element by element -/

section BackwardGeneric

variable {α : Type} [LinearOrderedField α]

/-- The inner product over the channels of the upstream gradient and the
output values of a blob at position `(i, j)`. -/
theorem dotPass_eq_sum (t : Blob α) (scale_data : Nat → α) (i j : Nat)
    (hi : i < t.num) (hj : j < t.height * t.width) :
    dotPass t.num (t.channels * (t.height * t.width)) t.channels (t.height * t.width)
        t.diff t.data scale_data (i * (t.height * t.width) + j)
      = ∑ c in Finset.range t.channels, t.diffAt i c j * t.dataAt i c j := by
  rw [dotPass_at _ _ _ _ _ _ _ i j hi hj, forLoop_add]
  exact Finset.sum_congr rfl (fun c _ => by simp [Blob.diffAt, Blob.dataAt, offset_eq])

/-- Every element of a successful backward run, and the scratch value it
leaves. -/
theorem Backward_cpu_out (layer : MultiSoftmaxLayer α) (t b : Blob α)
    (ts bs : List (Blob α)) (pd : List Bool)
    (hch : b.channels = t.channels) (hh : b.height = t.height) (hw : b.width = t.width)
    (i k j : Nat) (hi : i < t.num) (hk : k < t.channels) (hj : j < t.height * t.width) :
    outDiff (Backward_cpu layer (t :: ts) pd (b :: bs)) t.channels t.height t.width i k j
        = some ((t.diffAt i k j
            - ∑ c in Finset.range t.channels, t.diffAt i c j * t.dataAt i c j)
          * t.dataAt i k j) ∧
      outScale (Backward_cpu layer (t :: ts) pd (b :: bs)) t.height t.width i j
        = some (∑ c in Finset.range t.channels, t.diffAt i c j * t.dataAt i c j) := by
  have hN : t.num ≠ 0 := Nat.not_eq_zero_of_lt hi
  have hcount : t.count = t.num * (t.channels * (t.height * t.width)) := by
    unfold Blob.count
    rw [Nat.mul_assoc, Nat.mul_assoc]
  have hlt : i * (t.channels * (t.height * t.width)) + k * (t.height * t.width) + j
      < t.num * (t.channels * (t.height * t.width)) := by
    have := offset_lt hi hk hj
    rwa [offset_eq] at this
  simp only [Backward_cpu, if_neg hN, outDiff, outScale, dim_eq t hN, offset_eq, scaleOffset,
    hch, hh, hw]
  refine ⟨?_, by rw [dotPass_eq_sum t _ i j hi hj]⟩
  simp only [caffe_mul, hcount, if_pos hlt]
  rw [subPass_at _ _ _ _ (Nat.le_refl _) _ _ i k j hi hk hj, dotPass_eq_sum t _ i j hi hj]
  simp only [memcpy, if_pos hlt, Blob.diffAt, Blob.dataAt, offset_eq]

end BackwardGeneric

/-! ## The claims on the backward kernel -/

/-- C3: for an output-value tensor and an upstream gradient of the same shape
(N,C,H,W) (the data and the diff of the top blob, the bottom blob having that
shape too) and every valid (i,k,j), Backward_cpu returns,
input_grad[i,k,j] = (upstream_grad[i,k,j] - dot[i,j]) * output[i,k,j] with
dot[i,j] the sum over the channels of upstream_grad[i,·,j] * output[i,·,j] taken
on the unmodified upstream gradient, and ScaleBuffer[i*imgSize + j] = dot[i,j]. -/
theorem Backward_cpu_formula {α : Type} [LinearOrderedField α]
    (layer : MultiSoftmaxLayer α) (t b : Blob α) (pd : List Bool)
    (hch : b.channels = t.channels) (hh : b.height = t.height) (hw : b.width = t.width)
    (i k j : Nat) (hi : i < t.num) (hk : k < t.channels) (hj : j < t.height * t.width) :
    outDiff (Backward_cpu layer [t] pd [b]) t.channels t.height t.width i k j
        = some ((t.diffAt i k j
            - ∑ c in Finset.range t.channels, t.diffAt i c j * t.dataAt i c j)
          * t.dataAt i k j) ∧
      outScale (Backward_cpu layer [t] pd [b]) t.height t.width i j
        = some (∑ c in Finset.range t.channels, t.diffAt i c j * t.dataAt i c j) :=
  Backward_cpu_out layer t b [] [] pd hch hh hw i k j hi hk hj

/-- C3 at N=1, C=2, H=W=1 over the rationals, output values [1/4, 3/4],
upstream gradient [1, 0], element (0,0,0). -/
theorem Backward_cpu_formula_witness :
    outDiff (Backward_cpu (layerOf 1) [blobOf 1 2 1 1 [1/4, 3/4] [1, 0]] [true]
          [blobOf 1 2 1 1 [] []]) 2 1 1 0 0 0
        = some (((blobOf 1 2 1 1 [1/4, 3/4] [1, 0] : Blob ℚ).diffAt 0 0 0
            - ∑ c in Finset.range 2, (blobOf 1 2 1 1 [1/4, 3/4] [1, 0] : Blob ℚ).diffAt 0 c 0
                * (blobOf 1 2 1 1 [1/4, 3/4] [1, 0] : Blob ℚ).dataAt 0 c 0)
          * (blobOf 1 2 1 1 [1/4, 3/4] [1, 0] : Blob ℚ).dataAt 0 0 0) ∧
      outScale (Backward_cpu (layerOf 1) [blobOf 1 2 1 1 [1/4, 3/4] [1, 0]] [true]
          [blobOf 1 2 1 1 [] []]) 1 1 0 0
        = some (∑ c in Finset.range 2, (blobOf 1 2 1 1 [1/4, 3/4] [1, 0] : Blob ℚ).diffAt 0 c 0
            * (blobOf 1 2 1 1 [1/4, 3/4] [1, 0] : Blob ℚ).dataAt 0 c 0) :=
  Backward_cpu_formula (layerOf 1) (blobOf 1 2 1 1 [1/4, 3/4] [1, 0]) (blobOf 1 2 1 1 [] [])
    [true] rfl rfl rfl 0 0 0 (by decide) (by decide) (by decide)

/-- C4 at the failing input N=1, C=2, H=W=1, Multiplier 2, input [0, 0],
upstream gradient [1, 0]: Forward_cpu returns [1, 1]; Backward_cpu on these
output values returns input_grad[0,0,0] = 0; yet the derivative in x[0,0,0] of
g[0]*out[0] + g[1]*out[1], the Jacobian-vector product of the claim, is 1/2. -/
theorem Backward_cpu_not_gradient :
    outData (Forward_cpu Real.exp (layerOf 2) [blobOf 1 2 1 1 [0, 0] []] [blobOf 1 2 1 1 [] []])
        2 1 1 0 0 0 = some 1 ∧
      outData (Forward_cpu Real.exp (layerOf 2) [blobOf 1 2 1 1 [0, 0] []]
        [blobOf 1 2 1 1 [] []]) 2 1 1 0 1 0 = some 1 ∧
      outDiff (Backward_cpu (layerOf (2 : ℝ)) [blobOf 1 2 1 1 [1, 1] [1, 0]] [true]
        [blobOf 1 2 1 1 [] []]) 2 1 1 0 0 0 = some 0 ∧
      HasDerivAt (fun x : ℝ =>
        1 * (outData (Forward_cpu Real.exp (layerOf 2) [blobOf 1 2 1 1 [x, 0] []]
            [blobOf 1 2 1 1 [] []]) 2 1 1 0 0 0).getD 0
        + 0 * (outData (Forward_cpu Real.exp (layerOf 2) [blobOf 1 2 1 1 [x, 0] []]
            [blobOf 1 2 1 1 [] []]) 2 1 1 0 1 0).getD 0) (1 / 2) 0 := by
  have hf : ∀ (x : ℝ) (k : Nat), k < 2 →
      outData (Forward_cpu Real.exp (layerOf 2) [blobOf 1 2 1 1 [x, 0] []]
        [blobOf 1 2 1 1 [] []]) 2 1 1 0 k 0
      = some (Real.exp ((blobOf 1 2 1 1 [x, 0] [] : Blob ℝ).dataAt 0 k 0)
          / (Real.exp x + 1) * 2) := by
    intro x k hk
    have h := Forward_cpu_softmax (layerOf 2) (blobOf 1 2 1 1 [x, 0] []) (blobOf 1 2 1 1 [] [])
      [] [] 0 k 0 Nat.one_pos hk Nat.one_pos
    rw [show (blobOf 1 2 1 1 [x, 0] [] : Blob ℝ).channels = 2 from rfl,
      show (blobOf 1 2 1 1 [x, 0] [] : Blob ℝ).height = 1 from rfl,
      show (blobOf 1 2 1 1 [x, 0] [] : Blob ℝ).width = 1 from rfl] at h
    rw [h]
    simp [Finset.sum_range_succ, blobOf, bufferOf, Blob.dataAt, offset, layerOf]
  refine ⟨?_, ?_, ?_, ?_⟩
  · rw [hf 0 0 (by decide)]
    norm_num [blobOf, bufferOf, Blob.dataAt, offset]
  · rw [hf 0 1 (by decide)]
    norm_num [blobOf, bufferOf, Blob.dataAt, offset]
  · have h := (Backward_cpu_out (layerOf (2 : ℝ)) (blobOf 1 2 1 1 [1, 1] [1, 0])
      (blobOf 1 2 1 1 [] []) [] [] [true] rfl rfl rfl 0 0 0 (by decide) (by decide)
      (by decide)).1
    rw [show (blobOf 1 2 1 1 [1, 1] [1, 0] : Blob ℝ).channels = 2 from rfl,
      show (blobOf 1 2 1 1 [1, 1] [1, 0] : Blob ℝ).height = 1 from rfl,
      show (blobOf 1 2 1 1 [1, 1] [1, 0] : Blob ℝ).width = 1 from rfl] at h
    rw [h]
    simp [Finset.sum_range_succ, blobOf, bufferOf, Blob.dataAt, Blob.diffAt, offset]
  · have hfun : (fun x : ℝ =>
        1 * (outData (Forward_cpu Real.exp (layerOf 2) [blobOf 1 2 1 1 [x, 0] []]
            [blobOf 1 2 1 1 [] []]) 2 1 1 0 0 0).getD 0
        + 0 * (outData (Forward_cpu Real.exp (layerOf 2) [blobOf 1 2 1 1 [x, 0] []]
            [blobOf 1 2 1 1 [] []]) 2 1 1 0 1 0).getD 0)
        = fun x : ℝ => Real.exp x / (Real.exp x + 1) * 2 := by
      funext x
      rw [hf x 0 (by decide), hf x 1 (by decide)]
      simp [blobOf, bufferOf, Blob.dataAt, offset]
    rw [hfun]
    have h1 : HasDerivAt Real.exp (Real.exp 0) 0 := Real.hasDerivAt_exp 0
    have h2 : HasDerivAt (fun x : ℝ => Real.exp x + 1) (Real.exp 0) 0 := h1.add_const 1
    have h3 := (h1.div h2 (by rw [Real.exp_zero]; norm_num)).mul_const (2 : ℝ)
    convert h3 using 1
    rw [Real.exp_zero]
    norm_num

/-! ## The claims on Reshape and on the arity of the calls -/

/-- The scratch size computed by Reshape, `(count / num) / channels`, is
`height * width` when `num` and `channels` are positive. -/
theorem imgSize_eq {α : Type} (b : Blob α) (hN : 1 ≤ b.num) (hC : 1 ≤ b.channels) :
    b.count / b.num / b.channels = b.height * b.width := by
  rw [dim_eq b (Nat.pos_iff_ne_zero.1 hN), Nat.mul_div_cancel_left _ hC]

/-- Reshape on one input and one output of positive `num` and `channels`. -/
theorem Reshape_ok {α : Type} [LinearOrderedField α] (layer : MultiSoftmaxLayer α) (b t : Blob α)
    (hN : 1 ≤ b.num) (hC : 1 ≤ b.channels) :
    Reshape layer [b] [t]
      = ⟨none, [t.Reshape b.num b.channels b.height b.width],
          { layer with
            sum_multiplier_ :=
              { layer.sum_multiplier_.Reshape 1 b.channels b.height b.width with
                data := forLoop (layer.sum_multiplier_.Reshape 1 b.channels b.height b.width).count
                  (fun i d => store d i 1) layer.sum_multiplier_.data }
            scale_ := layer.scale_.Reshape (b.num * (b.height * b.width)) 1 1 1 }⟩ := by
  simp [Reshape, Nat.pos_iff_ne_zero.1 hN, Nat.pos_iff_ne_zero.1 hC, imgSize_eq b hN hC,
    Blob.Reshape]

/-- C5: for an input of shape (N,C,H,W) with N >= 1 and C >= 1, Reshape
returns, the output tensor has the shape (N,C,H,W), the scratch blob scale_ has
N*H*W elements (shape (N*H*W,1,1,1)), the integer computation
num * ((count / num) / channels) equals N*H*W, and (count / num) / channels is
the imgSize = height * width of Forward_cpu and Backward_cpu. -/
theorem Reshape_shapes {α : Type} [LinearOrderedField α] (layer : MultiSoftmaxLayer α)
    (b t : Blob α) (hN : 1 ≤ b.num) (hC : 1 ≤ b.channels) :
    ∃ (t' : Blob α) (layer' : MultiSoftmaxLayer α),
      Reshape layer [b] [t] = ⟨none, [t'], layer'⟩ ∧
      (t'.num = b.num ∧ t'.channels = b.channels ∧ t'.height = b.height ∧ t'.width = b.width) ∧
      layer'.scale_.count = b.num * b.height * b.width ∧
      b.num * (b.count / b.num / b.channels) = b.num * b.height * b.width ∧
      b.count / b.num / b.channels = b.height * b.width := by
  refine ⟨_, _, Reshape_ok layer b t hN hC, ⟨rfl, rfl, rfl, rfl⟩, ?_, ?_, imgSize_eq b hN hC⟩
  · simp [Blob.count, Blob.Reshape, Nat.mul_assoc]
  · rw [imgSize_eq b hN hC, Nat.mul_assoc]

/-- C5 at the shape (2,3,4,5) over the rationals. -/
theorem Reshape_shapes_witness :
    ∃ (t' : Blob ℚ) (layer' : MultiSoftmaxLayer ℚ),
      Reshape (layerOf 1) [blobOf 2 3 4 5 [] []] [blobOf 0 0 0 0 [] []] = ⟨none, [t'], layer'⟩ ∧
      (t'.num = 2 ∧ t'.channels = 3 ∧ t'.height = 4 ∧ t'.width = 5) ∧
      layer'.scale_.count = 2 * 4 * 5 ∧
      2 * ((blobOf 2 3 4 5 [] [] : Blob ℚ).count / 2 / 3) = 2 * 4 * 5 ∧
      (blobOf 2 3 4 5 [] [] : Blob ℚ).count / 2 / 3 = 4 * 5 :=
  Reshape_shapes (layerOf 1) (blobOf 2 3 4 5 [] []) (blobOf 0 0 0 0 [] []) (by decide) (by decide)

/-- C9 as stated fails: on one input tensor and one output tensor, the input
of shape (0,1,1,1), Reshape does not succeed: it stops at the division
`count / num` by zero. -/
theorem Reshape_single_blobs_failing :
    [(blobOf 0 1 1 1 [] [] : Blob ℚ)].length = 1 ∧ [(blobOf 0 0 0 0 [] [] : Blob ℚ)].length = 1 ∧
      (Reshape (layerOf 1) [(blobOf 0 1 1 1 [] [] : Blob ℚ)] [blobOf 0 0 0 0 [] []]).failure
        = some Failure.divByZero := by
  refine ⟨rfl, rfl, ?_⟩
  simp [Reshape, blobOf]

/-- C9, amended: a CHECK_EQ of Reshape aborts if and only if the number of
input tensors is not exactly one or the number of output tensors is not exactly
one; when it does, the output vector and the layer (scale_ included) are left
unchanged; and when both counts are one and the input has N >= 1 and C >= 1,
Reshape succeeds. -/
theorem Reshape_arity {α : Type} [LinearOrderedField α] (layer : MultiSoftmaxLayer α)
    (bottom top : List (Blob α)) :
    ((∃ msg, (Reshape layer bottom top).failure = some (Failure.checkFailed msg))
        ↔ (bottom.length ≠ 1 ∨ top.length ≠ 1)) ∧
      ((bottom.length ≠ 1 ∨ top.length ≠ 1) →
        (Reshape layer bottom top).blobs = top ∧ (Reshape layer bottom top).layer = layer) ∧
      (bottom.length = 1 → top.length = 1 → (∀ b, b ∈ bottom → 1 ≤ b.num ∧ 1 ≤ b.channels) →
        (Reshape layer bottom top).failure = none) := by
  refine ⟨⟨fun h => ?_, fun h => ?_⟩, fun h => ?_, fun hb ht hpos => ?_⟩
  · by_contra hcon
    rw [not_or, not_not, not_not] at hcon
    obtain ⟨msg, hmsg⟩ := h
    match bottom, top, hcon with
    | [b], [t], _ =>
      by_cases hN : b.num = 0
      · simp [Reshape, hN] at hmsg
      · by_cases hC : b.channels = 0
        · simp [Reshape, hN, hC] at hmsg
        · simp [Reshape, hN, hC] at hmsg
  · by_cases hb : bottom.length = 1
    · have ht : top.length ≠ 1 := h.resolve_left (fun hne => hne hb)
      exact ⟨"Softmax Layer takes a single blob as output.", by simp [Reshape, hb, ht]⟩
    · exact ⟨"Softmax Layer takes a single blob as input.", by simp [Reshape, hb]⟩
  · by_cases hb : bottom.length = 1
    · have ht : top.length ≠ 1 := h.resolve_left (fun hne => hne hb)
      simp [Reshape, hb, ht]
    · simp [Reshape, hb]
  · match bottom, top, hb, ht with
    | [b], [t], _, _ =>
      have h1 := hpos b (List.mem_singleton.2 rfl)
      rw [Reshape_ok layer b t h1.1 h1.2]

/-- C9 amended, over the rationals: with two input tensors the CHECK_EQ aborts
and nothing is changed; with one input of shape (2,3,4,5) and one output
Reshape succeeds. -/
theorem Reshape_arity_witness :
    ((Reshape (layerOf 1) [blobOf 2 3 4 5 [] [], blobOf 2 3 4 5 [] []]
          [(blobOf 0 0 0 0 [] [] : Blob ℚ)]).blobs = [blobOf 0 0 0 0 [] []] ∧
        (Reshape (layerOf 1) [blobOf 2 3 4 5 [] [], blobOf 2 3 4 5 [] []]
          [(blobOf 0 0 0 0 [] [] : Blob ℚ)]).layer = layerOf 1) ∧
      (Reshape (layerOf 1) [blobOf 2 3 4 5 [] []] [(blobOf 0 0 0 0 [] [] : Blob ℚ)]).failure
        = none :=
  ⟨(Reshape_arity (layerOf 1) [blobOf 2 3 4 5 [] [], blobOf 2 3 4 5 [] []]
      [(blobOf 0 0 0 0 [] [] : Blob ℚ)]).2.1 (Or.inl (by decide)),
    (Reshape_arity (layerOf 1) [blobOf 2 3 4 5 [] []] [(blobOf 0 0 0 0 [] [] : Blob ℚ)]).2.2
      rfl rfl (fun b hb => by
        rw [List.mem_singleton.1 hb]
        exact ⟨by decide, by decide⟩)⟩

/-- C10 as stated fails: called with two input tensors, Forward_cpu raises
nothing and computes: it returns, and the output element (0,0,0), 0 before the
call, is 1/2 after it (input [0, 0], Multiplier 1). -/
theorem Forward_cpu_two_inputs_computes :
    (Forward_cpu Real.exp (layerOf 1) [blobOf 1 2 1 1 [0, 0] [], blobOf 1 2 1 1 [0, 0] []]
        [blobOf 1 2 1 1 [] []]).failure = none ∧
      (blobOf 1 2 1 1 [] [] : Blob ℝ).dataAt 0 0 0 = 0 ∧
      outData (Forward_cpu Real.exp (layerOf 1)
        [blobOf 1 2 1 1 [0, 0] [], blobOf 1 2 1 1 [0, 0] []] [blobOf 1 2 1 1 [] []])
        2 1 1 0 0 0 = some (1 / 2) := by
  refine ⟨by simp [Forward_cpu, blobOf], by simp [blobOf, bufferOf, Blob.dataAt], ?_⟩
  have h := Forward_cpu_softmax (layerOf 1) (blobOf 1 2 1 1 [0, 0] []) (blobOf 1 2 1 1 [] [])
    [blobOf 1 2 1 1 [0, 0] []] [] 0 0 0 (by decide) (by decide) (by decide)
  rw [show (blobOf 1 2 1 1 [0, 0] [] : Blob ℝ).channels = 2 from rfl,
    show (blobOf 1 2 1 1 [0, 0] [] : Blob ℝ).height = 1 from rfl,
    show (blobOf 1 2 1 1 [0, 0] [] : Blob ℝ).width = 1 from rfl] at h
  rw [h]
  norm_num [Finset.sum_range_succ, blobOf, bufferOf, Blob.dataAt, offset, layerOf]

/-! ## The intermediate buffers of the forward kernel -/

theorem count_eq {α : Type} (b : Blob α) :
    b.count = b.num * (b.channels * (b.height * b.width)) := by
  unfold Blob.count
  rw [Nat.mul_assoc, Nat.mul_assoc]

theorem index_lt {α : Type} (b : Blob α) {i c j : Nat}
    (hi : i < b.num) (hc : c < b.channels) (hj : j < b.height * b.width) :
    i * (b.channels * (b.height * b.width)) + c * (b.height * b.width) + j
      < b.num * (b.channels * (b.height * b.width)) := by
  have := offset_lt hi hc hj
  rwa [offset_eq] at this

section ForwardStages

variable {α : Type} [LinearOrderedField α]

/-- After the first pass (line 70) the scratch cell of a position holds the
maximum over the channels, whatever it held before. -/
theorem maxPass_eq_channelMax (b : Blob α) (scale_data : Nat → α) (i j : Nat)
    (hC : 0 < b.channels) (hi : i < b.num) (hj : j < b.height * b.width) :
    maxPass b.num (b.channels * (b.height * b.width)) b.channels (b.height * b.width)
        b.data scale_data (i * (b.height * b.width) + j)
      = channelMax (b.channelsAt i j) b.channels hC := by
  rw [maxPass_at _ _ _ _ _ _ i j hi hj]
  have h0 : b.data (i * (b.channels * (b.height * b.width)) + j) = b.channelsAt i j 0 := by
    simp [Blob.channelsAt, Blob.dataAt, offset_eq]
  rw [h0, forLoop_congr b.channels _ (fun c v => max v (b.channelsAt i j c)) _
    (fun c _ v => by simp [Blob.channelsAt, Blob.dataAt, offset_eq])]
  exact forLoop_max b.channels (b.channelsAt i j) _

/-- After the subtraction pass (line 80) an element holds the input minus the
maximum of its position. -/
theorem subPass_eq_sub_channelMax (b : Blob α) (scale_data top_data : Nat → α) (i c j : Nat)
    (hC : 0 < b.channels) (hi : i < b.num) (hc : c < b.channels) (hj : j < b.height * b.width) :
    subPass b.num (b.channels * (b.height * b.width)) b.channels (b.height * b.width)
        (maxPass b.num (b.channels * (b.height * b.width)) b.channels (b.height * b.width)
          b.data scale_data) (memcpy top_data b.data b.count)
        (i * (b.channels * (b.height * b.width)) + c * (b.height * b.width) + j)
      = b.dataAt i c j - channelMax (b.channelsAt i j) b.channels hC := by
  rw [subPass_at _ _ _ _ (Nat.le_refl _) _ _ i c j hi hc hj,
    maxPass_eq_channelMax b scale_data i j hC hi hj]
  simp only [memcpy, count_eq, if_pos (index_lt b hi hc hj), Blob.dataAt, offset_eq]

/-- After the exponentiation (line 82) an element holds the exponential of the
input minus the maximum of its position. -/
theorem expStage_at (exp : α → α) (b : Blob α) (scale_data top_data : Nat → α) (i c j : Nat)
    (hC : 0 < b.channels) (hi : i < b.num) (hc : c < b.channels) (hj : j < b.height * b.width) :
    caffe_exp exp (b.num * (b.channels * (b.height * b.width)))
        (subPass b.num (b.channels * (b.height * b.width)) b.channels (b.height * b.width)
          (maxPass b.num (b.channels * (b.height * b.width)) b.channels (b.height * b.width)
            b.data scale_data) (memcpy top_data b.data b.count))
        (subPass b.num (b.channels * (b.height * b.width)) b.channels (b.height * b.width)
          (maxPass b.num (b.channels * (b.height * b.width)) b.channels (b.height * b.width)
            b.data scale_data) (memcpy top_data b.data b.count))
        (i * (b.channels * (b.height * b.width)) + c * (b.height * b.width) + j)
      = exp (b.dataAt i c j - channelMax (b.channelsAt i j) b.channels hC) := by
  simp only [caffe_exp, if_pos (index_lt b hi hc hj)]
  rw [subPass_eq_sub_channelMax b scale_data top_data i c j hC hi hc hj]

/-- The outcome of Forward_cpu on a non-empty batch, pass by pass. -/
theorem Forward_cpu_eq (exp : α → α) (layer : MultiSoftmaxLayer α) (b t : Blob α)
    (bs ts : List (Blob α)) (hN : b.num ≠ 0) :
    Forward_cpu exp layer (b :: bs) (t :: ts)
      = ⟨none,
          { t with
            data := divPass b.num (b.count / b.num) b.channels (b.height * b.width)
              layer.max_multiple
              (sumPass b.num (b.count / b.num) b.channels (b.height * b.width)
                (caffe_exp exp (b.num * (b.count / b.num))
                  (subPass b.num (b.count / b.num) b.channels (b.height * b.width)
                    (maxPass b.num (b.count / b.num) b.channels (b.height * b.width)
                      b.data layer.scale_.data) (memcpy t.data b.data b.count))
                  (subPass b.num (b.count / b.num) b.channels (b.height * b.width)
                    (maxPass b.num (b.count / b.num) b.channels (b.height * b.width)
                      b.data layer.scale_.data) (memcpy t.data b.data b.count)))
                (maxPass b.num (b.count / b.num) b.channels (b.height * b.width)
                  b.data layer.scale_.data))
              (caffe_exp exp (b.num * (b.count / b.num))
                (subPass b.num (b.count / b.num) b.channels (b.height * b.width)
                  (maxPass b.num (b.count / b.num) b.channels (b.height * b.width)
                    b.data layer.scale_.data) (memcpy t.data b.data b.count))
                (subPass b.num (b.count / b.num) b.channels (b.height * b.width)
                  (maxPass b.num (b.count / b.num) b.channels (b.height * b.width)
                    b.data layer.scale_.data) (memcpy t.data b.data b.count))) } :: ts,
          { layer with
            scale_ :=
              { layer.scale_ with
                data := sumPass b.num (b.count / b.num) b.channels (b.height * b.width)
                  (caffe_exp exp (b.num * (b.count / b.num))
                    (subPass b.num (b.count / b.num) b.channels (b.height * b.width)
                      (maxPass b.num (b.count / b.num) b.channels (b.height * b.width)
                        b.data layer.scale_.data) (memcpy t.data b.data b.count))
                    (subPass b.num (b.count / b.num) b.channels (b.height * b.width)
                      (maxPass b.num (b.count / b.num) b.channels (b.height * b.width)
                        b.data layer.scale_.data) (memcpy t.data b.data b.count)))
                  (maxPass b.num (b.count / b.num) b.channels (b.height * b.width)
                    b.data layer.scale_.data) } }⟩ := by
  simp only [Forward_cpu, if_neg hN]

/-- The scratch value a forward run leaves at a position: the sum over the
channels of the exponentiated elements. -/
theorem Forward_cpu_outScale_raw (exp : α → α) (layer : MultiSoftmaxLayer α) (b t : Blob α)
    (bs ts : List (Blob α)) (i j : Nat) (hi : i < b.num) (hj : j < b.height * b.width) :
    outScale (Forward_cpu exp layer (b :: bs) (t :: ts)) b.height b.width i j
      = some (∑ c in Finset.range b.channels,
          caffe_exp exp (b.num * (b.channels * (b.height * b.width)))
            (subPass b.num (b.channels * (b.height * b.width)) b.channels (b.height * b.width)
              (maxPass b.num (b.channels * (b.height * b.width)) b.channels
                (b.height * b.width) b.data layer.scale_.data) (memcpy t.data b.data b.count))
            (subPass b.num (b.channels * (b.height * b.width)) b.channels (b.height * b.width)
              (maxPass b.num (b.channels * (b.height * b.width)) b.channels
                (b.height * b.width) b.data layer.scale_.data) (memcpy t.data b.data b.count))
            (i * (b.channels * (b.height * b.width)) + c * (b.height * b.width) + j)) := by
  have hN : b.num ≠ 0 := Nat.not_eq_zero_of_lt hi
  simp only [Forward_cpu, if_neg hN, outScale, dim_eq b hN, scaleOffset]
  rw [sumPass_at _ _ _ _ _ _ i j hi hj, forLoop_add]

/-- The scratch value a forward run leaves at a position, for `C ≥ 1`: the sum
over the channels of the exponentials of the max-subtracted inputs. -/
theorem Forward_cpu_outScale (exp : α → α) (layer : MultiSoftmaxLayer α) (b t : Blob α)
    (bs ts : List (Blob α)) (i j : Nat)
    (hC : 0 < b.channels) (hi : i < b.num) (hj : j < b.height * b.width) :
    outScale (Forward_cpu exp layer (b :: bs) (t :: ts)) b.height b.width i j
      = some (∑ c in Finset.range b.channels,
          exp (b.dataAt i c j - channelMax (b.channelsAt i j) b.channels hC)) := by
  rw [Forward_cpu_outScale_raw exp layer b t bs ts i j hi hj,
    Finset.sum_congr rfl (fun c hc =>
      expStage_at exp b layer.scale_.data t.data i c j hC hi (Finset.mem_range.1 hc) hj)]

end ForwardStages

/-! ## The scratch buffer -/

section Scratch

variable {α : Type} [LinearOrderedField α]

/-- The scratch value a backward run leaves at a position: the inner product
over the channels. -/
theorem Backward_cpu_outScale (layer : MultiSoftmaxLayer α) (t b : Blob α)
    (ts bs : List (Blob α)) (pd : List Bool)
    (hch : b.channels = t.channels) (hh : b.height = t.height) (hw : b.width = t.width)
    (i j : Nat) (hi : i < t.num) (hj : j < t.height * t.width) :
    outScale (Backward_cpu layer (t :: ts) pd (b :: bs)) t.height t.width i j
      = some (∑ c in Finset.range t.channels, t.diffAt i c j * t.dataAt i c j) := by
  have hN : t.num ≠ 0 := Nat.not_eq_zero_of_lt hi
  simp only [Backward_cpu, if_neg hN, outScale, dim_eq t hN, scaleOffset, hch, hh, hw]
  rw [dotPass_eq_sum t _ i j hi hj]

/-- The scratch value a forward run leaves does not depend on what the scratch
buffer held before the run. -/
theorem Forward_cpu_outScale_indep (exp : α → α) (layer : MultiSoftmaxLayer α)
    (s1 s2 : Nat → α) (b t : Blob α) (bs ts : List (Blob α)) (i j : Nat)
    (hi : i < b.num) (hj : j < b.height * b.width) :
    ∃ s : α,
      outScale (Forward_cpu exp { layer with scale_ := { layer.scale_ with data := s1 } }
        (b :: bs) (t :: ts)) b.height b.width i j = some s ∧
      outScale (Forward_cpu exp { layer with scale_ := { layer.scale_ with data := s2 } }
        (b :: bs) (t :: ts)) b.height b.width i j = some s := by
  refine ⟨_, Forward_cpu_outScale_raw exp _ b t bs ts i j hi hj, ?_⟩
  rw [Forward_cpu_outScale_raw exp _ b t bs ts i j hi hj]
  congr 1
  refine Finset.sum_congr rfl (fun c hc => ?_)
  have hc' := Finset.mem_range.1 hc
  have hC : 0 < b.channels := Nat.zero_lt_of_lt hc'
  rw [expStage_at exp b s2 t.data i c j hC hi hc' hj,
    expStage_at exp b s1 t.data i c j hC hi hc' hj]

end Scratch

/-- C11: the scratch buffer carries no state across calls.  For tensors of one
shape (N,C,H,W) and any two initial contents s1, s2 of the scratch buffer, at
every valid position (i,j) Forward_cpu returns under both, leaves the same
scratch value and the same output at every channel; and likewise Backward_cpu
leaves the same scratch value and the same input gradient at every channel. -/
theorem scratch_carries_no_state {α : Type} [LinearOrderedField α] (exp : α → α)
    (layer : MultiSoftmaxLayer α) (s1 s2 : Nat → α) (b t : Blob α) (pd : List Bool)
    (hnum : b.num = t.num) (hch : b.channels = t.channels)
    (hh : b.height = t.height) (hw : b.width = t.width)
    (i j : Nat) (hi : i < b.num) (hj : j < b.height * b.width) :
    ((∃ s : α,
        outScale (Forward_cpu exp { layer with scale_ := { layer.scale_ with data := s1 } }
          [b] [t]) b.height b.width i j = some s ∧
        outScale (Forward_cpu exp { layer with scale_ := { layer.scale_ with data := s2 } }
          [b] [t]) b.height b.width i j = some s) ∧
      ∀ k, k < b.channels → ∃ v : α,
        outData (Forward_cpu exp { layer with scale_ := { layer.scale_ with data := s1 } }
          [b] [t]) b.channels b.height b.width i k j = some v ∧
        outData (Forward_cpu exp { layer with scale_ := { layer.scale_ with data := s2 } }
          [b] [t]) b.channels b.height b.width i k j = some v) ∧
    ((∃ s : α,
        outScale (Backward_cpu { layer with scale_ := { layer.scale_ with data := s1 } }
          [t] pd [b]) b.height b.width i j = some s ∧
        outScale (Backward_cpu { layer with scale_ := { layer.scale_ with data := s2 } }
          [t] pd [b]) b.height b.width i j = some s) ∧
      ∀ k, k < b.channels → ∃ v : α,
        outDiff (Backward_cpu { layer with scale_ := { layer.scale_ with data := s1 } }
          [t] pd [b]) b.channels b.height b.width i k j = some v ∧
        outDiff (Backward_cpu { layer with scale_ := { layer.scale_ with data := s2 } }
          [t] pd [b]) b.channels b.height b.width i k j = some v) := by
  refine ⟨⟨Forward_cpu_outScale_indep exp layer s1 s2 b t [] [] i j hi hj, fun k hk => ?_⟩, ?_⟩
  · exact ⟨_, Forward_cpu_outData exp _ b t [] [] i k j hi hk hj,
      Forward_cpu_outData exp _ b t [] [] i k j hi hk hj⟩
  · rw [hch, hh, hw]
    rw [hnum] at hi
    rw [hh, hw] at hj
    refine ⟨⟨_, Backward_cpu_outScale _ t b [] [] pd hch hh hw i j hi hj,
      Backward_cpu_outScale _ t b [] [] pd hch hh hw i j hi hj⟩, fun k hk => ?_⟩
    exact ⟨_, (Backward_cpu_out _ t b [] [] pd hch hh hw i k j hi hk hj).1,
      (Backward_cpu_out _ t b [] [] pd hch hh hw i k j hi hk hj).1⟩

/-- C11 at N=1, C=2, H=W=1 over the rationals, the scratch buffer holding 7
everywhere or 9 everywhere before the call. -/
theorem scratch_carries_no_state_witness :
    ((∃ s : ℚ,
        outScale (Forward_cpu (fun x => 1 + x)
          { layerOf 1 with scale_ := { (layerOf (1 : ℚ)).scale_ with data := fun _ => 7 } }
          [blobOf 1 2 1 1 [1, 2] [1, 0]] [blobOf 1 2 1 1 [1/4, 3/4] [1, 0]]) 1 1 0 0 = some s ∧
        outScale (Forward_cpu (fun x => 1 + x)
          { layerOf 1 with scale_ := { (layerOf (1 : ℚ)).scale_ with data := fun _ => 9 } }
          [blobOf 1 2 1 1 [1, 2] [1, 0]] [blobOf 1 2 1 1 [1/4, 3/4] [1, 0]]) 1 1 0 0 = some s) ∧
      ∀ k, k < 2 → ∃ v : ℚ,
        outData (Forward_cpu (fun x => 1 + x)
          { layerOf 1 with scale_ := { (layerOf (1 : ℚ)).scale_ with data := fun _ => 7 } }
          [blobOf 1 2 1 1 [1, 2] [1, 0]] [blobOf 1 2 1 1 [1/4, 3/4] [1, 0]]) 2 1 1 0 k 0
            = some v ∧
        outData (Forward_cpu (fun x => 1 + x)
          { layerOf 1 with scale_ := { (layerOf (1 : ℚ)).scale_ with data := fun _ => 9 } }
          [blobOf 1 2 1 1 [1, 2] [1, 0]] [blobOf 1 2 1 1 [1/4, 3/4] [1, 0]]) 2 1 1 0 k 0
            = some v) ∧
    ((∃ s : ℚ,
        outScale (Backward_cpu
          { layerOf 1 with scale_ := { (layerOf (1 : ℚ)).scale_ with data := fun _ => 7 } }
          [blobOf 1 2 1 1 [1/4, 3/4] [1, 0]] [true] [blobOf 1 2 1 1 [1, 2] [1, 0]]) 1 1 0 0
            = some s ∧
        outScale (Backward_cpu
          { layerOf 1 with scale_ := { (layerOf (1 : ℚ)).scale_ with data := fun _ => 9 } }
          [blobOf 1 2 1 1 [1/4, 3/4] [1, 0]] [true] [blobOf 1 2 1 1 [1, 2] [1, 0]]) 1 1 0 0
            = some s) ∧
      ∀ k, k < 2 → ∃ v : ℚ,
        outDiff (Backward_cpu
          { layerOf 1 with scale_ := { (layerOf (1 : ℚ)).scale_ with data := fun _ => 7 } }
          [blobOf 1 2 1 1 [1/4, 3/4] [1, 0]] [true] [blobOf 1 2 1 1 [1, 2] [1, 0]]) 2 1 1 0 k 0
            = some v ∧
        outDiff (Backward_cpu
          { layerOf 1 with scale_ := { (layerOf (1 : ℚ)).scale_ with data := fun _ => 9 } }
          [blobOf 1 2 1 1 [1/4, 3/4] [1, 0]] [true] [blobOf 1 2 1 1 [1, 2] [1, 0]]) 2 1 1 0 k 0
            = some v) :=
  scratch_carries_no_state (fun x => 1 + x) (layerOf 1) (fun _ => 7) (fun _ => 9)
    (blobOf 1 2 1 1 [1, 2] [1, 0]) (blobOf 1 2 1 1 [1/4, 3/4] [1, 0]) [true]
    rfl rfl rfl rfl 0 0 (by decide) (by decide)

/-! ## The concrete scenarios -/

/-- The forward run on the two-channel input [1, 2] (N=1, H=W=1), in closed
form with e = exp 1. -/
theorem Forward_cpu_one_two (M : ℝ) (t : Blob ℝ) :
    outData (Forward_cpu Real.exp (layerOf M) [blobOf 1 2 1 1 [1, 2] []] [t]) 2 1 1 0 0 0
        = some (1 / (1 + Real.exp 1) * M) ∧
      outData (Forward_cpu Real.exp (layerOf M) [blobOf 1 2 1 1 [1, 2] []] [t]) 2 1 1 0 1 0
        = some (Real.exp 1 / (1 + Real.exp 1) * M) := by
  have he : 0 < Real.exp 1 := Real.exp_pos 1
  have he2 : Real.exp 2 = Real.exp 1 * Real.exp 1 := by
    rw [← Real.exp_add]
    norm_num
  have hf : ∀ k, k < 2 →
      outData (Forward_cpu Real.exp (layerOf M) [blobOf 1 2 1 1 [1, 2] []] [t]) 2 1 1 0 k 0
      = some (Real.exp ((blobOf 1 2 1 1 [1, 2] [] : Blob ℝ).dataAt 0 k 0)
          / (Real.exp 1 + Real.exp 2) * M) := by
    intro k hk
    have h := Forward_cpu_softmax (layerOf M) (blobOf 1 2 1 1 [1, 2] []) t
      [] [] 0 k 0 Nat.one_pos hk Nat.one_pos
    rw [show (blobOf 1 2 1 1 [1, 2] [] : Blob ℝ).channels = 2 from rfl,
      show (blobOf 1 2 1 1 [1, 2] [] : Blob ℝ).height = 1 from rfl,
      show (blobOf 1 2 1 1 [1, 2] [] : Blob ℝ).width = 1 from rfl] at h
    rw [h]
    simp [Finset.sum_range_succ, blobOf, bufferOf, Blob.dataAt, offset, layerOf]
  refine ⟨?_, ?_⟩
  · rw [hf 0 (by decide)]
    have : (blobOf 1 2 1 1 [1, 2] [] : Blob ℝ).dataAt 0 0 0 = 1 := by
      simp [blobOf, bufferOf, Blob.dataAt, offset]
    rw [this, he2]
    congr 2
    field_simp
    ring
  · rw [hf 1 (by decide)]
    have : (blobOf 1 2 1 1 [1, 2] [] : Blob ℝ).dataAt 0 1 0 = 2 := by
      simp [blobOf, bufferOf, Blob.dataAt, offset]
    rw [this, he2]
    congr 2
    field_simp
    ring

/-- Decimal bounds on the two-class softmax of [1, 2]. -/
theorem softmax_one_two_bounds :
    (0.26894 : ℝ) < 1 / (1 + Real.exp 1) ∧ 1 / (1 + Real.exp 1) < 0.26895 ∧
      (0.73105 : ℝ) < Real.exp 1 / (1 + Real.exp 1) ∧
      Real.exp 1 / (1 + Real.exp 1) < 0.73106 := by
  have h1 := Real.exp_one_gt_d9
  have h2 := Real.exp_one_lt_d9
  have hpos : (0 : ℝ) < 1 + Real.exp 1 := by linarith
  refine ⟨?_, ?_, ?_, ?_⟩
  · rw [lt_div_iff₀ hpos]
    linarith
  · rw [div_lt_iff₀ hpos]
    linarith
  · rw [lt_div_iff₀ hpos]
    linarith
  · rw [div_lt_iff₀ hpos]
    linarith

/-- C12 as stated fails: with Multiplier = 4 the first output on the input
[1, 2] is 4 / (1 + e) = 1.07576..., which is not within 0.0001 of 1.0756. -/
theorem Forward_cpu_scenario_four_off :
    ∃ q0 : ℝ,
      outData (Forward_cpu Real.exp (layerOf 4) [blobOf 1 2 1 1 [1, 2] []]
        [blobOf 1 2 1 1 [] []]) 2 1 1 0 0 0 = some q0 ∧
      ¬ |q0 - 1.0756| < 0.0001 := by
  refine ⟨_, (Forward_cpu_one_two 4 _).1, ?_⟩
  have hb := softmax_one_two_bounds
  rw [abs_lt, not_and_or]
  right
  linarith [hb.1]

/-- C12, amended: over the reals, for N=1, C=2, H=W=1 and input [1, 2],
Forward_cpu with Multiplier = 1 returns [p0, p1] with |p0 - 0.2689| < 0.0001
and |p1 - 0.7311| < 0.0001, and with Multiplier = 4 returns [q0, q1] with
|q0 - 1.0758| < 0.0001 and |q1 - 2.9242| < 0.0001. -/
theorem Forward_cpu_scenario :
    (∃ p0 p1 : ℝ,
      outData (Forward_cpu Real.exp (layerOf 1) [blobOf 1 2 1 1 [1, 2] []]
        [blobOf 1 2 1 1 [] []]) 2 1 1 0 0 0 = some p0 ∧
      outData (Forward_cpu Real.exp (layerOf 1) [blobOf 1 2 1 1 [1, 2] []]
        [blobOf 1 2 1 1 [] []]) 2 1 1 0 1 0 = some p1 ∧
      |p0 - 0.2689| < 0.0001 ∧ |p1 - 0.7311| < 0.0001) ∧
    (∃ q0 q1 : ℝ,
      outData (Forward_cpu Real.exp (layerOf 4) [blobOf 1 2 1 1 [1, 2] []]
        [blobOf 1 2 1 1 [] []]) 2 1 1 0 0 0 = some q0 ∧
      outData (Forward_cpu Real.exp (layerOf 4) [blobOf 1 2 1 1 [1, 2] []]
        [blobOf 1 2 1 1 [] []]) 2 1 1 0 1 0 = some q1 ∧
      |q0 - 1.0758| < 0.0001 ∧ |q1 - 2.9242| < 0.0001) := by
  obtain ⟨h1, h2, h3, h4⟩ := softmax_one_two_bounds
  refine ⟨⟨_, _, (Forward_cpu_one_two 1 _).1, (Forward_cpu_one_two 1 _).2, ?_, ?_⟩,
    ⟨_, _, (Forward_cpu_one_two 4 _).1, (Forward_cpu_one_two 4 _).2, ?_, ?_⟩⟩
  · rw [abs_lt]
    constructor <;> linarith
  · rw [abs_lt]
    constructor <;> linarith
  · rw [abs_lt]
    constructor <;> linarith
  · rw [abs_lt]
    constructor <;> linarith

/-- A forward run on a non-empty batch returns one blob for one blob: the top
blob with its data rewritten, its shape and its diff untouched. -/
theorem Forward_cpu_returns {α : Type} [LinearOrderedField α] (exp : α → α)
    (layer : MultiSoftmaxLayer α) (b t : Blob α) (hN : b.num ≠ 0) :
    ∃ (t' : Blob α) (layer' : MultiSoftmaxLayer α),
      Forward_cpu exp layer [b] [t] = ⟨none, [t'], layer'⟩ ∧
      t'.num = t.num ∧ t'.channels = t.channels ∧ t'.height = t.height ∧
      t'.width = t.width ∧ t'.diff = t.diff ∧
      ∀ C H W i k j, outData (Forward_cpu exp layer [b] [t]) C H W i k j
        = some (t'.data (offset C H W i k j)) := by
  refine ⟨_, _, Forward_cpu_eq exp layer b t [] [] hN, rfl, rfl, rfl, rfl, rfl, ?_⟩
  intro C H W i k j
  rw [Forward_cpu_eq exp layer b t [] [] hN]
  rfl

/-- C13: over the reals, for N=1, C=2, H=W=1, with the output values of
Forward_cpu on [1, 2] under Multiplier = 1 and the upstream gradient [1, 0],
Backward_cpu leaves dot = ScaleBuffer[0] within 0.0001 of 0.2689 and returns
input_grad = [d0, d1] with |d0 - 0.1966| < 0.0001 and |d1 + 0.1966| < 0.0001. -/
theorem Backward_cpu_scenario :
    ∃ (t' : Blob ℝ) (layer' : MultiSoftmaxLayer ℝ),
      Forward_cpu Real.exp (layerOf 1) [blobOf 1 2 1 1 [1, 2] []] [blobOf 1 2 1 1 [] [1, 0]]
        = ⟨none, [t'], layer'⟩ ∧
      ∃ dot d0 d1 : ℝ,
        outScale (Backward_cpu layer' [t'] [true] [blobOf 1 2 1 1 [] []]) 1 1 0 0 = some dot ∧
        outDiff (Backward_cpu layer' [t'] [true] [blobOf 1 2 1 1 [] []]) 2 1 1 0 0 0
          = some d0 ∧
        outDiff (Backward_cpu layer' [t'] [true] [blobOf 1 2 1 1 [] []]) 2 1 1 0 1 0
          = some d1 ∧
        |dot - 0.2689| < 0.0001 ∧ |d0 - 0.1966| < 0.0001 ∧ |d1 + 0.1966| < 0.0001 := by
  obtain ⟨t', layer', heq, _, hc, hh, hw, hdiff, hdata⟩ :=
    Forward_cpu_returns Real.exp (layerOf 1) (blobOf 1 2 1 1 [1, 2] [])
      (blobOf 1 2 1 1 [] [1, 0]) Nat.one_ne_zero
  have hc2 : t'.channels = 2 := hc
  have hh1 : t'.height = 1 := hh
  have hw1 : t'.width = 1 := hw
  have hnum1 : t'.num = 1 := by assumption
  -- the output values and the upstream gradient held by the top blob
  have hp0 : t'.dataAt 0 0 0 = 1 / (1 + Real.exp 1) * 1 := by
    have h := hdata 2 1 1 0 0 0
    rw [(Forward_cpu_one_two 1 _).1] at h
    rw [Blob.dataAt, hc2, hh1, hw1]
    exact (Option.some.inj h).symm
  have hp1 : t'.dataAt 0 1 0 = Real.exp 1 / (1 + Real.exp 1) * 1 := by
    have h := hdata 2 1 1 0 1 0
    rw [(Forward_cpu_one_two 1 _).2] at h
    rw [Blob.dataAt, hc2, hh1, hw1]
    exact (Option.some.inj h).symm
  have hg0 : t'.diffAt 0 0 0 = 1 := by
    rw [Blob.diffAt, hc2, hh1, hw1, hdiff]
    simp [blobOf, bufferOf, offset]
  have hg1 : t'.diffAt 0 1 0 = 0 := by
    rw [Blob.diffAt, hc2, hh1, hw1, hdiff]
    simp [blobOf, bufferOf, offset]
  have hdot : ∑ c in Finset.range 2, t'.diffAt 0 c 0 * t'.dataAt 0 c 0
      = 1 / (1 + Real.exp 1) := by
    rw [Finset.sum_range_succ, Finset.sum_range_succ, Finset.sum_range_zero, hg0, hg1, hp0]
    ring
  have hB : ∀ k, k < 2 →
      outDiff (Backward_cpu layer' [t'] [true] [blobOf 1 2 1 1 [] []]) 2 1 1 0 k 0
          = some ((t'.diffAt 0 k 0 - 1 / (1 + Real.exp 1)) * t'.dataAt 0 k 0) ∧
        outScale (Backward_cpu layer' [t'] [true] [blobOf 1 2 1 1 [] []]) 1 1 0 0
          = some (1 / (1 + Real.exp 1)) := by
    intro k hk
    have h := Backward_cpu_out layer' t' (blobOf 1 2 1 1 [] []) [] [] [true]
      hc2.symm hh1.symm hw1.symm 0 k 0 (by rw [hnum1]; exact Nat.one_pos)
      (by rw [hc2]; exact hk) (by rw [hh1, hw1]; exact Nat.one_pos)
    rw [hc2, hh1, hw1, hdot] at h
    exact h
  obtain ⟨h1, h2, h3, h4⟩ := softmax_one_two_bounds
  refine ⟨t', layer', heq, _, _, _, (hB 0 (by decide)).2, (hB 0 (by decide)).1,
    (hB 1 (by decide)).1, ?_, ?_, ?_⟩
  · rw [abs_lt]
    constructor <;> linarith
  · rw [hg0, hp0, abs_lt]
    constructor <;> nlinarith
  · rw [hg1, hp1, abs_lt]
    constructor <;> nlinarith

/-! ## The maximum and the sum of a position -/

section MaxSum

variable {α : Type} [LinearOrderedField α]

/-- The channel maximum is at least every channel value. -/
theorem le_channelMax (x : Nat → α) (C : Nat) (hC : 0 < C) (k : Nat) (hk : k < C) :
    x k ≤ channelMax x C hC :=
  Finset.le_sup' x (Finset.mem_range.2 hk)

/-- The channel maximum is one of the channel values. -/
theorem channelMax_attained (x : Nat → α) (C : Nat) (hC : 0 < C) :
    ∃ k, k < C ∧ channelMax x C hC = x k := by
  obtain ⟨k, hk, h⟩ := Finset.exists_mem_eq_sup' ⟨0, Finset.mem_range.2 hC⟩ x
  exact ⟨k, Finset.mem_range.1 hk, h⟩

/-- The channel maximum reads the channel values below `C` only. -/
theorem channelMax_congr (x y : Nat → α) (C : Nat) (hC : 0 < C)
    (h : ∀ k, k < C → x k = y k) : channelMax x C hC = channelMax y C hC :=
  Finset.sup'_congr _ rfl (fun k hk => h k (Finset.mem_range.1 hk))

end MaxSum

/-- C14: for an input with C >= 1 and a valid position (i,j), with scale_data
the scratch buffer after the first pass of Forward_cpu and top_data the output
buffer after its subtraction pass (the buffer Forward_cpu then exponentiates):
scale_data[i*imgSize + j] is at least every input[i,k,j], equals one of them,
and every top_data[i,k,j], the value passed to the exponential, is <= 0. -/
theorem Forward_cpu_exponent_nonpos {α : Type} [LinearOrderedField α] (exp : α → α)
    (layer : MultiSoftmaxLayer α) (b t : Blob α) (i j : Nat)
    (hC : 1 ≤ b.channels) (hi : i < b.num) (hj : j < b.height * b.width) :
    ∃ scale_data top_data : Nat → α,
      scale_data = maxPass b.num (b.count / b.num) b.channels (b.height * b.width)
        b.data layer.scale_.data ∧
      top_data = subPass b.num (b.count / b.num) b.channels (b.height * b.width)
        scale_data (memcpy t.data b.data b.count) ∧
      (Forward_cpu exp layer [b] [t]).blobs
        = [{ t with
              data := divPass b.num (b.count / b.num) b.channels (b.height * b.width)
                layer.max_multiple
                (sumPass b.num (b.count / b.num) b.channels (b.height * b.width)
                  (caffe_exp exp (b.num * (b.count / b.num)) top_data top_data) scale_data)
                (caffe_exp exp (b.num * (b.count / b.num)) top_data top_data) }] ∧
      (∀ k, k < b.channels →
        b.dataAt i k j ≤ scale_data (scaleOffset b.height b.width i j)) ∧
      (∃ k, k < b.channels ∧ scale_data (scaleOffset b.height b.width i j) = b.dataAt i k j) ∧
      (∀ k, k < b.channels → top_data (offset b.channels b.height b.width i k j) ≤ 0) := by
  have hN : b.num ≠ 0 := Nat.not_eq_zero_of_lt hi
  refine ⟨_, _, rfl, rfl, by rw [Forward_cpu_eq exp layer b t [] [] hN], ?_, ?_, ?_⟩
  · intro k hk
    rw [dim_eq b hN, scaleOffset, maxPass_eq_channelMax b _ i j hC hi hj]
    exact le_channelMax (b.channelsAt i j) b.channels hC k hk
  · rw [dim_eq b hN, scaleOffset, maxPass_eq_channelMax b _ i j hC hi hj]
    exact channelMax_attained (b.channelsAt i j) b.channels hC
  · intro k hk
    rw [dim_eq b hN, offset_eq, subPass_eq_sub_channelMax b _ _ i k j hC hi hk hj]
    exact sub_nonpos.2 (le_channelMax (b.channelsAt i j) b.channels hC k hk)

/-- C14 at N=1, C=2, H=W=1 over the rationals, input [1, 2]. -/
theorem Forward_cpu_exponent_nonpos_witness :
    ∃ scale_data top_data : Nat → ℚ,
      scale_data = maxPass 1 ((blobOf 1 2 1 1 [1, 2] [] : Blob ℚ).count / 1) 2 (1 * 1)
        (blobOf 1 2 1 1 [1, 2] [] : Blob ℚ).data (layerOf (1 : ℚ)).scale_.data ∧
      top_data = subPass 1 ((blobOf 1 2 1 1 [1, 2] [] : Blob ℚ).count / 1) 2 (1 * 1)
        scale_data (memcpy (blobOf 1 2 1 1 [] [] : Blob ℚ).data
          (blobOf 1 2 1 1 [1, 2] [] : Blob ℚ).data (blobOf 1 2 1 1 [1, 2] [] : Blob ℚ).count) ∧
      (Forward_cpu (fun x => 1 + x) (layerOf 1) [blobOf 1 2 1 1 [1, 2] []]
          [blobOf 1 2 1 1 [] []]).blobs
        = [{ (blobOf 1 2 1 1 [] [] : Blob ℚ) with
              data := divPass 1 ((blobOf 1 2 1 1 [1, 2] [] : Blob ℚ).count / 1) 2 (1 * 1) 1
                (sumPass 1 ((blobOf 1 2 1 1 [1, 2] [] : Blob ℚ).count / 1) 2 (1 * 1)
                  (caffe_exp (fun x => 1 + x)
                    (1 * ((blobOf 1 2 1 1 [1, 2] [] : Blob ℚ).count / 1)) top_data top_data)
                  scale_data)
                (caffe_exp (fun x => 1 + x)
                  (1 * ((blobOf 1 2 1 1 [1, 2] [] : Blob ℚ).count / 1)) top_data top_data) }] ∧
      (∀ k, k < 2 →
        (blobOf 1 2 1 1 [1, 2] [] : Blob ℚ).dataAt 0 k 0 ≤ scale_data (scaleOffset 1 1 0 0)) ∧
      (∃ k, k < 2 ∧
        scale_data (scaleOffset 1 1 0 0) = (blobOf 1 2 1 1 [1, 2] [] : Blob ℚ).dataAt 0 k 0) ∧
      (∀ k, k < 2 → top_data (offset 2 1 1 0 k 0) ≤ 0) :=
  Forward_cpu_exponent_nonpos (fun x => 1 + x) (layerOf 1) (blobOf 1 2 1 1 [1, 2] [])
    (blobOf 1 2 1 1 [] []) 0 0 (by decide) (by decide) (by decide)

/-- C15: positions are independent.  If two inputs b, b' of one shape agree on
all channels at a position (i,j), the outputs of Forward_cpu agree on all
channels at (i,j); and if two top blobs u, u' of that shape agree in output
value and upstream gradient on all channels at (i,j), the input gradients of
Backward_cpu agree on all channels at (i,j).  Nothing is assumed about the
other positions. -/
theorem positions_independent {α : Type} [LinearOrderedField α] (exp : α → α)
    (layer : MultiSoftmaxLayer α) (b b' t u u' d : Blob α) (pd : List Bool) (i j : Nat)
    (hb : b'.num = b.num ∧ b'.channels = b.channels ∧ b'.height = b.height ∧
      b'.width = b.width)
    (hu : u.num = b.num ∧ u.channels = b.channels ∧ u.height = b.height ∧ u.width = b.width)
    (hu' : u'.num = b.num ∧ u'.channels = b.channels ∧ u'.height = b.height ∧
      u'.width = b.width)
    (hd : d.channels = b.channels ∧ d.height = b.height ∧ d.width = b.width)
    (hi : i < b.num) (hj : j < b.height * b.width)
    (hx : ∀ k, k < b.channels → b'.dataAt i k j = b.dataAt i k j)
    (hout : ∀ k, k < b.channels → u'.dataAt i k j = u.dataAt i k j)
    (hgrad : ∀ k, k < b.channels → u'.diffAt i k j = u.diffAt i k j) :
    (∀ k, k < b.channels → ∃ v : α,
      outData (Forward_cpu exp layer [b'] [t]) b.channels b.height b.width i k j = some v ∧
      outData (Forward_cpu exp layer [b] [t]) b.channels b.height b.width i k j = some v) ∧
    (∀ k, k < b.channels → ∃ v : α,
      outDiff (Backward_cpu layer [u'] pd [d]) b.channels b.height b.width i k j = some v ∧
      outDiff (Backward_cpu layer [u] pd [d]) b.channels b.height b.width i k j = some v) := by
  obtain ⟨hbn, hbc, hbh, hbw⟩ := hb
  obtain ⟨hun, huc, huh, huw⟩ := hu
  obtain ⟨hun', huc', huh', huw'⟩ := hu'
  obtain ⟨hdc, hdh, hdw⟩ := hd
  refine ⟨fun k hk => ?_, fun k hk => ?_⟩
  · refine ⟨_, ?_, Forward_cpu_outData exp layer b t [] [] i k j hi hk hj⟩
    have h' := Forward_cpu_outData exp layer b' t [] [] i k j (hbn ▸ hi) (hbc ▸ hk)
      (by rw [hbh, hbw]; exact hj)
    have hC : 0 < b.channels := Nat.zero_lt_of_lt hk
    have hmax : channelMax (b'.channelsAt i j) b'.channels (hbc ▸ hC)
        = channelMax (b.channelsAt i j) b.channels hC := by
      have : ∀ (C : Nat) (h : C = b.channels) (hC' : 0 < C),
          channelMax (b'.channelsAt i j) C hC' = channelMax (b.channelsAt i j) b.channels hC := by
        intro C h hC'
        subst h
        exact channelMax_congr _ _ _ _ hx
      exact this _ hbc _
    rw [hmax] at h'
    rw [hbc, hbh, hbw] at h'
    rw [h', hx k hk, Finset.sum_congr rfl (fun c hc => by rw [hx c (Finset.mem_range.1 hc)])]
  · have h := (Backward_cpu_out layer u d [] [] pd (hdc.trans huc.symm) (hdh.trans huh.symm)
      (hdw.trans huw.symm) i k j (hun ▸ hi) (huc ▸ hk) (by rw [huh, huw]; exact hj)).1
    have h' := (Backward_cpu_out layer u' d [] [] pd (hdc.trans huc'.symm)
      (hdh.trans huh'.symm) (hdw.trans huw'.symm) i k j (hun' ▸ hi) (huc' ▸ hk)
      (by rw [huh', huw']; exact hj)).1
    rw [huc, huh, huw] at h
    rw [huc', huh', huw'] at h'
    refine ⟨_, ?_, h⟩
    rw [h', hout k hk, hgrad k hk, Finset.sum_congr rfl (fun c hc => by
      rw [hout c (Finset.mem_range.1 hc), hgrad c (Finset.mem_range.1 hc)])]

/-- C15 at N=1, C=2, H=1, W=2 over the rationals: the inputs, output values and
upstream gradients agree at position 0 and differ at position 1. -/
theorem positions_independent_witness :
    (∀ k, k < 2 → ∃ v : ℚ,
      outData (Forward_cpu (fun x => 1 + x) (layerOf 1) [blobOf 1 2 1 2 [1, 7, 2, 8] []]
        [blobOf 1 2 1 2 [] []]) 2 1 2 0 k 0 = some v ∧
      outData (Forward_cpu (fun x => 1 + x) (layerOf 1) [blobOf 1 2 1 2 [1, 5, 2, 6] []]
        [blobOf 1 2 1 2 [] []]) 2 1 2 0 k 0 = some v) ∧
    (∀ k, k < 2 → ∃ v : ℚ,
      outDiff (Backward_cpu (layerOf 1) [blobOf 1 2 1 2 [1/4, 1/3, 3/4, 2/3] [1, 5, 0, 7]]
        [true] [blobOf 1 2 1 2 [] []]) 2 1 2 0 k 0 = some v ∧
      outDiff (Backward_cpu (layerOf 1) [blobOf 1 2 1 2 [1/4, 1/2, 3/4, 1/2] [1, 0, 0, 1]]
        [true] [blobOf 1 2 1 2 [] []]) 2 1 2 0 k 0 = some v) :=
  positions_independent (fun x => 1 + x) (layerOf 1) (blobOf 1 2 1 2 [1, 5, 2, 6] [])
    (blobOf 1 2 1 2 [1, 7, 2, 8] []) (blobOf 1 2 1 2 [] [])
    (blobOf 1 2 1 2 [1/4, 1/2, 3/4, 1/2] [1, 0, 0, 1])
    (blobOf 1 2 1 2 [1/4, 1/3, 3/4, 2/3] [1, 5, 0, 7]) (blobOf 1 2 1 2 [] []) [true] 0 0
    ⟨rfl, rfl, rfl, rfl⟩ ⟨rfl, rfl, rfl, rfl⟩ ⟨rfl, rfl, rfl, rfl⟩ ⟨rfl, rfl, rfl⟩
    (by decide) (by decide)
    (fun k hk => by
      have hk2 : k < 2 := hk
      interval_cases k <;> norm_num [blobOf, bufferOf, Blob.dataAt, offset])
    (fun k hk => by
      have hk2 : k < 2 := hk
      interval_cases k <;> norm_num [blobOf, bufferOf, Blob.dataAt, offset])
    (fun k hk => by
      have hk2 : k < 2 := hk
      interval_cases k <;> norm_num [blobOf, bufferOf, Blob.diffAt, offset])

/-- The offsets the kernels compute, with dim = count / num and imgSize = H*W:
at a valid position (i,j) the scratch offset i*imgSize + j is below N*H*W and
determines (i,j); with a channel, the initial read offset i*dim + j is below
count; and for every channel k < C the flat offset i*dim + k*imgSize + j is
the NCHW offset of (i,k,j), is below count = N*C*H*W, and determines (i,k,j). -/
theorem offsets_in_bounds {α : Type} (b : Blob α) (i j : Nat)
    (hi : i < b.num) (hj : j < b.height * b.width) :
    (scaleOffset b.height b.width i j = i * (b.height * b.width) + j ∧
      scaleOffset b.height b.width i j < b.num * b.height * b.width ∧
      ∀ i' j', i' < b.num → j' < b.height * b.width →
        scaleOffset b.height b.width i j = scaleOffset b.height b.width i' j' →
        i = i' ∧ j = j') ∧
    (1 ≤ b.channels → i * (b.count / b.num) + j < b.count) ∧
    ∀ k, k < b.channels →
      i * (b.count / b.num) + k * (b.height * b.width) + j
        = offset b.channels b.height b.width i k j ∧
      i * (b.count / b.num) + k * (b.height * b.width) + j < b.count ∧
      b.count = b.num * b.channels * b.height * b.width ∧
      ∀ i' k' j', i' < b.num → k' < b.channels → j' < b.height * b.width →
        i * (b.count / b.num) + k * (b.height * b.width) + j
          = i' * (b.count / b.num) + k' * (b.height * b.width) + j' →
        i = i' ∧ k = k' ∧ j = j' := by
  have hN : b.num ≠ 0 := Nat.not_eq_zero_of_lt hi
  have hdim := dim_eq b hN
  refine ⟨⟨rfl, ?_, fun i' j' _ hj' h => mul_add_inj hj hj' h⟩, fun hC => ?_, fun k hk => ?_⟩
  · have h1 : (i + 1) * (b.height * b.width) ≤ b.num * (b.height * b.width) :=
      Nat.mul_le_mul_right _ hi
    rw [Nat.add_mul] at h1
    rw [Nat.mul_assoc]
    unfold scaleOffset
    omega
  · have h := index_lt b hi hC hj
    rw [hdim, count_eq]
    omega
  · refine ⟨by rw [hdim, offset_eq], ?_, rfl, fun i' k' j' _ hk' hj' h => ?_⟩
    · rw [hdim, count_eq]
      exact index_lt b hi hk hj
    · rw [hdim] at h
      exact index_inj (Nat.le_refl _) hk hj hk' hj' h

/-- The channel sum of the exponentials of the max-subtracted inputs is at
least 1: the channel attaining the maximum contributes exp 0. -/
theorem one_le_sum_exp_sub_max (x : Nat → ℝ) (C : Nat) (hC : 0 < C) :
    1 ≤ ∑ c in Finset.range C, Real.exp (x c - channelMax x C hC) := by
  obtain ⟨k, hk, hmax⟩ := channelMax_attained x C hC
  have h1 : Real.exp (x k - channelMax x C hC) = 1 := by
    rw [hmax, sub_self, Real.exp_zero]
  rw [← h1]
  exact Finset.single_le_sum (f := fun c => Real.exp (x c - channelMax x C hC))
    (fun c _ => (Real.exp_pos _).le) (Finset.mem_range.2 hk)

/-- The outputs of a forward run over the reals sum to the multiplier over
the channels of a position. -/
theorem softmax_sum (x : Nat → ℝ) (C : Nat) (hC : 0 < C) (M : ℝ) :
    ∑ k in Finset.range C, Real.exp (x k) / (∑ c in Finset.range C, Real.exp (x c)) * M
      = M := by
  have hs := sum_exp_pos x C hC
  rw [← Finset.sum_mul, ← Finset.sum_div, div_self (ne_of_gt hs), one_mul]

/-- C17: over the reals, for an input with C >= 1 and a valid position (i,j),
Forward_cpu returns and the channel sum it leaves in
ScaleBuffer[i*imgSize + j], the divisor of the division pass, is >= 1. -/
theorem Forward_cpu_divisor_ge_one (layer : MultiSoftmaxLayer ℝ) (b t : Blob ℝ) (i j : Nat)
    (hC : 1 ≤ b.channels) (hi : i < b.num) (hj : j < b.height * b.width) :
    ∃ s : ℝ,
      outScale (Forward_cpu Real.exp layer [b] [t]) b.height b.width i j = some s ∧ 1 ≤ s :=
  ⟨_, Forward_cpu_outScale Real.exp layer b t [] [] i j hC hi hj,
    one_le_sum_exp_sub_max (fun c => b.dataAt i c j) b.channels hC⟩

/-- C17 at N=1, C=2, H=W=1, input [1, 2]. -/
theorem Forward_cpu_divisor_ge_one_witness :
    ∃ s : ℝ,
      outScale (Forward_cpu Real.exp (layerOf 4) [blobOf 1 2 1 1 [1, 2] []]
        [blobOf 1 2 1 1 [] []]) 1 1 0 0 = some s ∧ 1 ≤ s :=
  Forward_cpu_divisor_ge_one (layerOf 4) (blobOf 1 2 1 1 [1, 2] []) (blobOf 1 2 1 1 [] [])
    0 0 (by decide) (by decide) (by decide)

/-- C18: for output values and an upstream gradient of one shape (the data
and the diff of the top blob u) and a valid position (i,j), Backward_cpu
returns and the sum over the channels of input_grad[i,k,j] equals
dot[i,j] * (1 - sum over the channels of output[i,k,j]); when the output values
at (i,j) are those Forward_cpu returns on some input with C >= 1 under a
Multiplier, the sum is dot[i,j] * (1 - Multiplier), which is 0 when
Multiplier = 1. -/
theorem Backward_cpu_channel_sum (layer : MultiSoftmaxLayer ℝ) (u d : Blob ℝ)
    (pd : List Bool) (i j : Nat)
    (hch : d.channels = u.channels) (hh : d.height = u.height) (hw : d.width = u.width)
    (hi : i < u.num) (hj : j < u.height * u.width) :
    ∃ (grad : Nat → ℝ) (dot : ℝ),
      (∀ k, k < u.channels →
        outDiff (Backward_cpu layer [u] pd [d]) u.channels u.height u.width i k j
          = some (grad k)) ∧
      outScale (Backward_cpu layer [u] pd [d]) u.height u.width i j = some dot ∧
      dot = ∑ k in Finset.range u.channels, u.diffAt i k j * u.dataAt i k j ∧
      ∑ k in Finset.range u.channels, grad k
        = dot * (1 - ∑ k in Finset.range u.channels, u.dataAt i k j) ∧
      ∀ (fl : MultiSoftmaxLayer ℝ) (x t : Blob ℝ),
        1 ≤ x.channels → i < x.num →
        x.channels = u.channels → x.height = u.height → x.width = u.width →
        (∀ k, k < u.channels →
          outData (Forward_cpu Real.exp fl [x] [t]) u.channels u.height u.width i k j
            = some (u.dataAt i k j)) →
        ∑ k in Finset.range u.channels, grad k = dot * (1 - fl.max_multiple) ∧
        (fl.max_multiple = 1 → ∑ k in Finset.range u.channels, grad k = 0) := by
  have hsum : ∑ k in Finset.range u.channels,
      (u.diffAt i k j - ∑ c in Finset.range u.channels, u.diffAt i c j * u.dataAt i c j)
        * u.dataAt i k j
      = (∑ c in Finset.range u.channels, u.diffAt i c j * u.dataAt i c j)
        * (1 - ∑ k in Finset.range u.channels, u.dataAt i k j) := by
    simp only [sub_mul, Finset.sum_sub_distrib, ← Finset.mul_sum]
    ring
  refine ⟨fun k => (u.diffAt i k j
      - ∑ c in Finset.range u.channels, u.diffAt i c j * u.dataAt i c j) * u.dataAt i k j,
    ∑ c in Finset.range u.channels, u.diffAt i c j * u.dataAt i c j,
    fun k hk => (Backward_cpu_out layer u d [] [] pd hch hh hw i k j hi hk hj).1,
    Backward_cpu_outScale layer u d [] [] pd hch hh hw i j hi hj, rfl, hsum, ?_⟩
  intro fl x t hC hix hxc hxh hxw hfwd
  have hout : ∑ k in Finset.range u.channels, u.dataAt i k j = fl.max_multiple := by
    have hval : ∀ k, k < u.channels → u.dataAt i k j
        = Real.exp (x.dataAt i k j)
          / (∑ c in Finset.range u.channels, Real.exp (x.dataAt i c j)) * fl.max_multiple := by
      intro k hk
      have h := Forward_cpu_softmax fl x t [] [] i k j hix (hxc ▸ hk)
        (by rw [hxh, hxw]; exact hj)
      rw [hxc, hxh, hxw, hfwd k hk] at h
      exact Option.some.inj h
    rw [Finset.sum_congr rfl (fun k hk => hval k (Finset.mem_range.1 hk))]
    exact softmax_sum (fun c => x.dataAt i c j) u.channels (hxc ▸ hC) fl.max_multiple
  rw [hsum, hout]
  exact ⟨rfl, fun h1 => by rw [h1, sub_self, mul_zero]⟩

/-- The forward run on the two-channel input [0, 0] (N=1, H=W=1) returns half
the multiplier on both channels. -/
theorem Forward_cpu_zero_zero (M : ℝ) (t : Blob ℝ) (k : Nat) (hk : k < 2) :
    outData (Forward_cpu Real.exp (layerOf M) [blobOf 1 2 1 1 [0, 0] []] [t]) 2 1 1 0 k 0
      = some (M / 2) := by
  have h := Forward_cpu_softmax (layerOf M) (blobOf 1 2 1 1 [0, 0] []) t
    [] [] 0 k 0 Nat.one_pos hk Nat.one_pos
  rw [show (blobOf 1 2 1 1 [0, 0] [] : Blob ℝ).channels = 2 from rfl,
    show (blobOf 1 2 1 1 [0, 0] [] : Blob ℝ).height = 1 from rfl,
    show (blobOf 1 2 1 1 [0, 0] [] : Blob ℝ).width = 1 from rfl] at h
  rw [h]
  interval_cases k <;>
    norm_num [Finset.sum_range_succ, blobOf, bufferOf, Blob.dataAt, offset, layerOf] <;>
    ring

/-- C18 at N=1, C=2, H=W=1: the output values [1, 1] are those of Forward_cpu
on [0, 0] under Multiplier 2, the upstream gradient is [1, 0], and the channel
sum of the input gradient is dot * (1 - 2). -/
theorem Backward_cpu_channel_sum_witness :
    ∃ (grad : Nat → ℝ) (dot : ℝ),
      (∀ k, k < 2 →
        outDiff (Backward_cpu (layerOf 2) [blobOf 1 2 1 1 [1, 1] [1, 0]] [true]
          [blobOf 1 2 1 1 [] []]) 2 1 1 0 k 0 = some (grad k)) ∧
      outScale (Backward_cpu (layerOf 2) [blobOf 1 2 1 1 [1, 1] [1, 0]] [true]
        [blobOf 1 2 1 1 [] []]) 1 1 0 0 = some dot ∧
      ∑ k in Finset.range 2, grad k = dot * (1 - 2) := by
  obtain ⟨grad, dot, h1, h2, _, _, h5⟩ :=
    Backward_cpu_channel_sum (layerOf 2) (blobOf 1 2 1 1 [1, 1] [1, 0]) (blobOf 1 2 1 1 [] [])
      [true] 0 0 rfl rfl rfl (by decide) (by decide)
  refine ⟨grad, dot, h1, h2, ?_⟩
  exact (h5 (layerOf 2) (blobOf 1 2 1 1 [0, 0] []) (blobOf 1 2 1 1 [] []) (by decide)
    (by decide) rfl rfl rfl (fun k hk => by
      have hk2 : k < 2 := hk
      rw [show (blobOf 1 2 1 1 [1, 1] [1, 0] : Blob ℝ).channels = 2 from rfl,
        show (blobOf 1 2 1 1 [1, 1] [1, 0] : Blob ℝ).height = 1 from rfl,
        show (blobOf 1 2 1 1 [1, 1] [1, 0] : Blob ℝ).width = 1 from rfl,
        Forward_cpu_zero_zero 2 _ k hk2]
      interval_cases k <;> norm_num [blobOf, bufferOf, Blob.dataAt, offset])).1

/-- C19: over the reals, for an input with C >= 1, a Multiplier >= 0, a valid
position (i,j) and two channels k, k' with input[i,k,j] <= input[i,k',j],
Forward_cpu returns and output[i,k,j] <= output[i,k',j]. -/
theorem Forward_cpu_monotone (layer : MultiSoftmaxLayer ℝ) (b t : Blob ℝ)
    (hM : 0 ≤ layer.max_multiple) (i j k k' : Nat)
    (hi : i < b.num) (hj : j < b.height * b.width)
    (hk : k < b.channels) (hk' : k' < b.channels)
    (hle : b.dataAt i k j ≤ b.dataAt i k' j) :
    ∃ v v' : ℝ,
      outData (Forward_cpu Real.exp layer [b] [t]) b.channels b.height b.width i k j = some v ∧
      outData (Forward_cpu Real.exp layer [b] [t]) b.channels b.height b.width i k' j
        = some v' ∧
      v ≤ v' := by
  refine ⟨_, _, Forward_cpu_softmax layer b t [] [] i k j hi hk hj,
    Forward_cpu_softmax layer b t [] [] i k' j hi hk' hj, ?_⟩
  have hs := sum_exp_pos (fun c => b.dataAt i c j) b.channels (Nat.zero_lt_of_lt hk)
  exact mul_le_mul_of_nonneg_right
    (div_le_div_of_nonneg_right (Real.exp_le_exp.2 hle) hs.le) hM

/-- C19 at N=1, C=2, H=W=1, input [1, 2], Multiplier 4, channels 0 and 1. -/
theorem Forward_cpu_monotone_witness :
    ∃ v v' : ℝ,
      outData (Forward_cpu Real.exp (layerOf 4) [blobOf 1 2 1 1 [1, 2] []]
        [blobOf 1 2 1 1 [] []]) 2 1 1 0 0 0 = some v ∧
      outData (Forward_cpu Real.exp (layerOf 4) [blobOf 1 2 1 1 [1, 2] []]
        [blobOf 1 2 1 1 [] []]) 2 1 1 0 1 0 = some v' ∧
      v ≤ v' :=
  Forward_cpu_monotone (layerOf 4) (blobOf 1 2 1 1 [1, 2] []) (blobOf 1 2 1 1 [] [])
    (by norm_num [layerOf]) 0 0 0 1 (by decide) (by decide) (by decide) (by decide)
    (by norm_num [blobOf, bufferOf, Blob.dataAt, offset])

/-! ## The range-checked kernels -/

/-- The offsets of the kernels, with `dim = count / num` as they compute it,
are below `count`. -/
theorem kernel_index_lt {α : Type} (b : Blob α) (hN : b.num ≠ 0) (i k j : Nat)
    (hi : i < b.num) (hk : k < b.channels) (hj : j < b.height * b.width) :
    i * (b.count / b.num) + k * (b.height * b.width) + j < b.count := by
  rw [dim_eq b hN, count_eq]
  exact index_lt b hi hk hj

/-- The offset of the initial read of the first pass is below `count` when
there is a channel. -/
theorem kernel_init_lt {α : Type} (b : Blob α) (hN : b.num ≠ 0) (hC : 0 < b.channels) (i j : Nat)
    (hi : i < b.num) (hj : j < b.height * b.width) :
    i * (b.count / b.num) + j < b.count := by
  have h := kernel_index_lt b hN i 0 j hi hC hj
  omega

/-- The scratch offsets are below `N * (H * W)`. -/
theorem scale_index_lt (N S i j : Nat) (hi : i < N) (hj : j < S) : i * S + j < N * S := by
  have h1 : (i + 1) * S ≤ N * S := Nat.mul_le_mul_right _ hi
  rw [Nat.add_mul] at h1
  omega

section Checked

variable {α : Type} [LinearOrderedField α]

/-- A checked loop whose every iteration stays in range is the plain loop. -/
theorem forLoopM_eq_some {σ : Type} (n : Nat) (bodyM : Nat → σ → Option σ)
    (body : Nat → σ → σ) (s : σ) (h : ∀ i, i < n → ∀ s, bodyM i s = some (body i s)) :
    forLoopM n bodyM s = some (forLoop n body s) := by
  induction n with
  | zero => rfl
  | succ n ih =>
    show (forLoopM n bodyM s).bind (bodyM n) = some (body n (forLoop n body s))
    rw [ih (fun i hi => h i (Nat.lt_succ_of_lt hi)), Option.some_bind,
      h n (Nat.lt_succ_self n)]

theorem maxPassChecked_eq (bottomSize scaleSize num dim dimClass imgSize : Nat)
    (bottom_data scale_data : Nat → α)
    (hinit : ∀ i j, i < num → j < imgSize → i * dim + j < bottomSize)
    (hidx : ∀ i k j, i < num → k < dimClass → j < imgSize →
      i * dim + k * imgSize + j < bottomSize)
    (hs : ∀ i j, i < num → j < imgSize → i * imgSize + j < scaleSize) :
    maxPassChecked bottomSize scaleSize num dim dimClass imgSize bottom_data scale_data
      = some (maxPass num dim dimClass imgSize bottom_data scale_data) := by
  unfold maxPassChecked maxPass
  refine forLoopM_eq_some _ _ _ _ (fun i hi s => forLoopM_eq_some _ _ _ _ (fun j hj s => ?_))
  simp only [readAt, writeAt, if_pos (hinit i j hi hj), if_pos (hs i j hi hj),
    Option.bind_eq_bind, Option.some_bind]
  exact forLoopM_eq_some _ _ _ _ (fun k hk s => by
    simp only [readAt, writeAt, if_pos (hidx i k j hi hk hj), if_pos (hs i j hi hj),
      Option.bind_eq_bind, Option.some_bind])

theorem sumPassChecked_eq (topSize scaleSize num dim dimClass imgSize : Nat)
    (top_data scale_data : Nat → α)
    (hidx : ∀ i k j, i < num → k < dimClass → j < imgSize →
      i * dim + k * imgSize + j < topSize)
    (hs : ∀ i j, i < num → j < imgSize → i * imgSize + j < scaleSize) :
    sumPassChecked topSize scaleSize num dim dimClass imgSize top_data scale_data
      = some (sumPass num dim dimClass imgSize top_data scale_data) := by
  unfold sumPassChecked sumPass
  refine forLoopM_eq_some _ _ _ _ (fun i hi s => forLoopM_eq_some _ _ _ _ (fun j hj s => ?_))
  simp only [writeAt, if_pos (hs i j hi hj), Option.bind_eq_bind, Option.some_bind]
  exact forLoopM_eq_some _ _ _ _ (fun k hk s => by
    simp only [readAt, writeAt, if_pos (hidx i k j hi hk hj), if_pos (hs i j hi hj),
      Option.bind_eq_bind, Option.some_bind])

theorem dotPassChecked_eq (topSize scaleSize num dim dimClass imgSize : Nat)
    (top_diff top_data scale_data : Nat → α)
    (hidx : ∀ i k j, i < num → k < dimClass → j < imgSize →
      i * dim + k * imgSize + j < topSize)
    (hs : ∀ i j, i < num → j < imgSize → i * imgSize + j < scaleSize) :
    dotPassChecked topSize scaleSize num dim dimClass imgSize top_diff top_data scale_data
      = some (dotPass num dim dimClass imgSize top_diff top_data scale_data) := by
  unfold dotPassChecked dotPass
  refine forLoopM_eq_some _ _ _ _ (fun i hi s => forLoopM_eq_some _ _ _ _ (fun j hj s => ?_))
  simp only [writeAt, if_pos (hs i j hi hj), Option.bind_eq_bind, Option.some_bind]
  exact forLoopM_eq_some _ _ _ _ (fun k hk s => by
    simp only [readAt, writeAt, if_pos (hidx i k j hi hk hj), if_pos (hs i j hi hj),
      Option.bind_eq_bind, Option.some_bind])

theorem subPassChecked_eq (scaleSize topSize num dim dimClass imgSize : Nat)
    (scale_data top_data : Nat → α)
    (hidx : ∀ i k j, i < num → k < dimClass → j < imgSize →
      i * dim + k * imgSize + j < topSize)
    (hs : ∀ i j, i < num → j < imgSize → i * imgSize + j < scaleSize) :
    subPassChecked scaleSize topSize num dim dimClass imgSize scale_data top_data
      = some (subPass num dim dimClass imgSize scale_data top_data) := by
  unfold subPassChecked subPass
  exact forLoopM_eq_some _ _ _ _ (fun i hi s => forLoopM_eq_some _ _ _ _ (fun j hj s =>
    forLoopM_eq_some _ _ _ _ (fun k hk s => by
      simp only [readAt, writeAt, if_pos (hidx i k j hi hk hj), if_pos (hs i j hi hj),
        Option.bind_eq_bind, Option.some_bind])))

theorem divPassChecked_eq (scaleSize topSize num dim dimClass imgSize : Nat) (multiple : α)
    (scale_data top_data : Nat → α)
    (hidx : ∀ i k j, i < num → k < dimClass → j < imgSize →
      i * dim + k * imgSize + j < topSize)
    (hs : ∀ i j, i < num → j < imgSize → i * imgSize + j < scaleSize) :
    divPassChecked scaleSize topSize num dim dimClass imgSize multiple scale_data top_data
      = some (divPass num dim dimClass imgSize multiple scale_data top_data) := by
  unfold divPassChecked divPass
  exact forLoopM_eq_some _ _ _ _ (fun i hi s => forLoopM_eq_some _ _ _ _ (fun j hj s =>
    forLoopM_eq_some _ _ _ _ (fun k hk s => by
      simp only [readAt, writeAt, if_pos (hidx i k j hi hk hj), if_pos (hs i j hi hj),
        Option.bind_eq_bind, Option.some_bind])))

/-- With at least one batch element and one channel, a top blob of at least
the input's element count and a scratch blob of at least N*H*W elements, no
access of Forward_cpu is out of range: the checked kernel is the kernel. -/
theorem Forward_cpu_checked_eq (exp : α → α) (layer : MultiSoftmaxLayer α) (b t : Blob α)
    (bs ts : List (Blob α)) (hN : b.num ≠ 0) (hC : 0 < b.channels)
    (ht : b.count ≤ t.count) (hs : b.num * (b.height * b.width) ≤ layer.scale_.count) :
    Forward_cpu_checked exp layer (b :: bs) (t :: ts)
      = some (Forward_cpu exp layer (b :: bs) (t :: ts)) := by
  have hidx := kernel_index_lt b hN
  have hidx' : ∀ i k j, i < b.num → k < b.channels → j < b.height * b.width →
      i * (b.count / b.num) + k * (b.height * b.width) + j < t.count :=
    fun i k j hi hk hj => Nat.lt_of_lt_of_le (hidx i k j hi hk hj) ht
  have hsc : ∀ i j, i < b.num → j < b.height * b.width →
      i * (b.height * b.width) + j < layer.scale_.count :=
    fun i j hi hj => Nat.lt_of_lt_of_le (scale_index_lt _ _ i j hi hj) hs
  have hexp : b.num * (b.count / b.num) ≤ t.count := by
    rw [dim_eq b hN, ← count_eq]
    exact ht
  simp only [Forward_cpu_checked, Forward_cpu, if_neg hN, memcpyChecked, caffe_expChecked,
    if_pos (And.intro ht (Nat.le_refl b.count)), if_pos (And.intro hexp hexp),
    maxPassChecked_eq _ _ _ _ _ _ _ _ (kernel_init_lt b hN hC) hidx hsc,
    subPassChecked_eq _ _ _ _ _ _ _ _ hidx' hsc,
    sumPassChecked_eq _ _ _ _ _ _ _ _ hidx' hsc,
    divPassChecked_eq _ _ _ _ _ _ _ _ _ hidx' hsc,
    Option.bind_eq_bind, Option.some_bind, Option.pure_def]

/-- With at least one batch element, a bottom blob of the top blob's channels,
height and width and at least its element count, and a scratch blob of at
least N*H*W elements, no access of Backward_cpu is out of range. -/
theorem Backward_cpu_checked_eq (layer : MultiSoftmaxLayer α) (t b : Blob α)
    (ts bs : List (Blob α)) (pd : List Bool) (hN : t.num ≠ 0)
    (hch : b.channels = t.channels) (hh : b.height = t.height) (hw : b.width = t.width)
    (hb : t.count ≤ b.count) (hs : t.num * (t.height * t.width) ≤ layer.scale_.count) :
    Backward_cpu_checked layer (t :: ts) pd (b :: bs)
      = some (Backward_cpu layer (t :: ts) pd (b :: bs)) := by
  have hidx := kernel_index_lt t hN
  have hidx' : ∀ i k j, i < t.num → k < t.channels → j < t.height * t.width →
      i * (t.count / t.num) + k * (t.height * t.width) + j < b.count :=
    fun i k j hi hk hj => Nat.lt_of_lt_of_le (hidx i k j hi hk hj) hb
  have hsc : ∀ i j, i < t.num → j < t.height * t.width →
      i * (t.height * t.width) + j < layer.scale_.count :=
    fun i j hi hj => Nat.lt_of_lt_of_le (scale_index_lt _ _ i j hi hj) hs
  simp only [Backward_cpu_checked, Backward_cpu, if_neg hN, memcpyChecked, caffe_mulChecked,
    hch, hh, hw, if_pos (And.intro hb (Nat.le_refl t.count)),
    if_pos (And.intro hb (And.intro (Nat.le_refl t.count) hb)),
    dotPassChecked_eq _ _ _ _ _ _ _ _ _ hidx hsc,
    subPassChecked_eq _ _ _ _ _ _ _ _ hidx' hsc,
    Option.bind_eq_bind, Option.some_bind, Option.pure_def]

end Checked

/-- A checked forward run on an input without channels (shape (1,0,1,1)): the
initial read `bottom_data[i*dim + j]` of the first pass is out of range. -/
theorem Forward_cpu_checked_no_channel :
    Forward_cpu_checked (fun x : ℚ => 1 + x)
      { layerOf 1 with scale_ := blobOf 1 1 1 1 [] [] }
      [blobOf 1 0 1 1 [] []] [blobOf 1 0 1 1 [] []] = none := by
  simp [Forward_cpu_checked, memcpyChecked, maxPassChecked, forLoopM, readAt, blobOf,
    Blob.count]

/-- A checked forward run with an unsized scratch blob (0 elements): the first
scratch write is out of range. -/
theorem Forward_cpu_checked_small_scratch :
    Forward_cpu_checked (fun x : ℚ => 1 + x) (layerOf 1)
      [blobOf 1 1 1 1 [3] []] [blobOf 1 1 1 1 [] []] = none := by
  simp [Forward_cpu_checked, memcpyChecked, maxPassChecked, forLoopM, readAt, writeAt,
    blobOf, layerOf, Blob.count]

/-- C16: for an input of shape (N,C,H,W) with N >= 1, an output blob of that
shape and a scratch blob of N*H*W elements (what Reshape establishes), no
tensor or scratch access of Backward_cpu is out of range, and for C >= 1 none
of Forward_cpu is, its initial read `bottom_data[i*dim + j]` included: run with
every subscript checked against the element count of its buffer, each kernel
completes and returns what the kernel returns.  With dim = count / num and
imgSize = H*W as the kernels compute them, at every valid position (i,j): the
scratch offset i*imgSize + j is below N*H*W and determines (i,j); for C >= 1
the initial read offset i*dim + j is below count; and for every channel k < C
the flat offset i*dim + k*imgSize + j is the NCHW offset of (i,k,j), is below
count = N*C*H*W, and determines (i,k,j). -/
theorem kernels_access_in_bounds {α : Type} [LinearOrderedField α] (exp : α → α)
    (layer : MultiSoftmaxLayer α) (b t : Blob α) (pd : List Bool)
    (hN : 1 ≤ b.num)
    (ht : t.num = b.num ∧ t.channels = b.channels ∧ t.height = b.height ∧ t.width = b.width)
    (hs : layer.scale_.count = b.num * b.height * b.width) :
    (1 ≤ b.channels →
      Forward_cpu_checked exp layer [b] [t] = some (Forward_cpu exp layer [b] [t])) ∧
    Backward_cpu_checked layer [t] pd [b] = some (Backward_cpu layer [t] pd [b]) ∧
    ∀ i j, i < b.num → j < b.height * b.width →
      (scaleOffset b.height b.width i j = i * (b.height * b.width) + j ∧
        scaleOffset b.height b.width i j < b.num * b.height * b.width ∧
        ∀ i' j', i' < b.num → j' < b.height * b.width →
          scaleOffset b.height b.width i j = scaleOffset b.height b.width i' j' →
          i = i' ∧ j = j') ∧
      (1 ≤ b.channels → i * (b.count / b.num) + j < b.count) ∧
      ∀ k, k < b.channels →
        i * (b.count / b.num) + k * (b.height * b.width) + j
          = offset b.channels b.height b.width i k j ∧
        i * (b.count / b.num) + k * (b.height * b.width) + j < b.count ∧
        b.count = b.num * b.channels * b.height * b.width ∧
        ∀ i' k' j', i' < b.num → k' < b.channels → j' < b.height * b.width →
          i * (b.count / b.num) + k * (b.height * b.width) + j
            = i' * (b.count / b.num) + k' * (b.height * b.width) + j' →
          i = i' ∧ k = k' ∧ j = j' := by
  obtain ⟨htn, htc, hth, htw⟩ := ht
  have hcount : t.count = b.count := by
    unfold Blob.count
    rw [htn, htc, hth, htw]
  have hscale : b.num * (b.height * b.width) ≤ layer.scale_.count := by
    rw [hs, Nat.mul_assoc]
  refine ⟨fun hC => Forward_cpu_checked_eq exp layer b t [] [] (Nat.pos_iff_ne_zero.1 hN) hC
      (Nat.le_of_eq hcount.symm) hscale, ?_, fun i j hi hj => offsets_in_bounds b i j hi hj⟩
  refine Backward_cpu_checked_eq layer t b [] [] pd ?_ htc.symm hth.symm htw.symm
    (Nat.le_of_eq hcount) ?_
  · rw [htn]
    exact Nat.pos_iff_ne_zero.1 hN
  · rw [htn, hth, htw]
    exact hscale

/-- C16 at the shape (2,3,4,5) over the rationals, the scratch blob of shape
(40,1,1,1). -/
theorem kernels_access_in_bounds_witness :
    Forward_cpu_checked (fun x : ℚ => 1 + x) { layerOf 1 with scale_ := blobOf 40 1 1 1 [] [] }
        [blobOf 2 3 4 5 [] []] [blobOf 2 3 4 5 [] []]
      = some (Forward_cpu (fun x : ℚ => 1 + x)
          { layerOf 1 with scale_ := blobOf 40 1 1 1 [] [] }
          [blobOf 2 3 4 5 [] []] [blobOf 2 3 4 5 [] []]) ∧
    Backward_cpu_checked { layerOf (1 : ℚ) with scale_ := blobOf 40 1 1 1 [] [] }
        [blobOf 2 3 4 5 [] []] [true] [blobOf 2 3 4 5 [] []]
      = some (Backward_cpu { layerOf (1 : ℚ) with scale_ := blobOf 40 1 1 1 [] [] }
          [blobOf 2 3 4 5 [] []] [true] [blobOf 2 3 4 5 [] []]) ∧
    ∀ i j, i < 2 → j < 4 * 5 →
      (scaleOffset 4 5 i j = i * (4 * 5) + j ∧
        scaleOffset 4 5 i j < 2 * 4 * 5 ∧
        ∀ i' j', i' < 2 → j' < 4 * 5 →
          scaleOffset 4 5 i j = scaleOffset 4 5 i' j' → i = i' ∧ j = j') ∧
      (1 ≤ 3 → i * ((blobOf 2 3 4 5 [] [] : Blob ℚ).count / 2) + j
        < (blobOf 2 3 4 5 [] [] : Blob ℚ).count) ∧
      ∀ k, k < 3 →
        i * ((blobOf 2 3 4 5 [] [] : Blob ℚ).count / 2) + k * (4 * 5) + j
          = offset 3 4 5 i k j ∧
        i * ((blobOf 2 3 4 5 [] [] : Blob ℚ).count / 2) + k * (4 * 5) + j
          < (blobOf 2 3 4 5 [] [] : Blob ℚ).count ∧
        (blobOf 2 3 4 5 [] [] : Blob ℚ).count = 2 * 3 * 4 * 5 ∧
        ∀ i' k' j', i' < 2 → k' < 3 → j' < 4 * 5 →
          i * ((blobOf 2 3 4 5 [] [] : Blob ℚ).count / 2) + k * (4 * 5) + j
            = i' * ((blobOf 2 3 4 5 [] [] : Blob ℚ).count / 2) + k' * (4 * 5) + j' →
          i = i' ∧ k = k' ∧ j = j' :=
  ⟨(kernels_access_in_bounds (fun x : ℚ => 1 + x)
      { layerOf 1 with scale_ := blobOf 40 1 1 1 [] [] }
      (blobOf 2 3 4 5 [] []) (blobOf 2 3 4 5 [] []) [true] (by decide)
      ⟨rfl, rfl, rfl, rfl⟩ (by decide)).1 (by decide),
    (kernels_access_in_bounds (fun x : ℚ => 1 + x)
      { layerOf 1 with scale_ := blobOf 40 1 1 1 [] [] }
      (blobOf 2 3 4 5 [] []) (blobOf 2 3 4 5 [] []) [true] (by decide)
      ⟨rfl, rfl, rfl, rfl⟩ (by decide)).2⟩

/-- C10, amended: Forward_cpu makes no arity check of its own.  Called with
two input tensors and one output tensor it raises nothing, ignores the second
input and computes the forward transform of the first: it returns what the
call on the first input alone returns, at every valid (i,k,j) of the first
input the output is (exp(x - m) / s) * Multiplier and the scratch value is s,
with m the maximum and s the sum over the channels at (i,j).  The arity error
for zero or two input tensors is raised by Reshape (the CHECK_EQ of line 20),
which then leaves the output vector and the layer, scratch buffer included,
unchanged. -/
theorem Forward_cpu_no_arity_check {α : Type} [LinearOrderedField α] (exp : α → α)
    (layer : MultiSoftmaxLayer α) (b1 b2 t : Blob α) (bottom top : List (Blob α))
    (i k j : Nat) (hC : 1 ≤ b1.channels)
    (hi : i < b1.num) (hk : k < b1.channels) (hj : j < b1.height * b1.width)
    (h : bottom = [] ∨ bottom = [b1, b2]) :
    (Forward_cpu exp layer [b1, b2] [t]).failure = none ∧
    Forward_cpu exp layer [b1, b2] [t] = Forward_cpu exp layer [b1] [t] ∧
    outData (Forward_cpu exp layer [b1, b2] [t]) b1.channels b1.height b1.width i k j
      = some (exp (b1.dataAt i k j - channelMax (b1.channelsAt i j) b1.channels hC)
          / (∑ c in Finset.range b1.channels,
              exp (b1.dataAt i c j - channelMax (b1.channelsAt i j) b1.channels hC))
          * layer.max_multiple) ∧
    outScale (Forward_cpu exp layer [b1, b2] [t]) b1.height b1.width i j
      = some (∑ c in Finset.range b1.channels,
          exp (b1.dataAt i c j - channelMax (b1.channelsAt i j) b1.channels hC)) ∧
    Reshape layer bottom top
      = ⟨some (Failure.checkFailed ("Softmax Layer takes a single blob as input.")),
          top, layer⟩ := by
  refine ⟨?_, rfl, Forward_cpu_outData exp layer b1 t [b2] [] i k j hi hk hj,
    Forward_cpu_outScale exp layer b1 t [b2] [] i j hC hi hj, ?_⟩
  · rw [Forward_cpu_eq exp layer b1 t [b2] [] (Nat.not_eq_zero_of_lt hi)]
  · rcases h with h | h <;> subst h <;> simp [Reshape]

/-- C10 amended, at N=1, C=2, H=W=1 over the reals, two copies of the input
[1, 2], Multiplier 4, element (0,1,0). -/
theorem Forward_cpu_no_arity_check_witness :
    (Forward_cpu Real.exp (layerOf 4) [blobOf 1 2 1 1 [1, 2] [], blobOf 1 2 1 1 [1, 2] []]
        [blobOf 1 2 1 1 [] []]).failure = none ∧
    Forward_cpu Real.exp (layerOf 4) [blobOf 1 2 1 1 [1, 2] [], blobOf 1 2 1 1 [1, 2] []]
        [blobOf 1 2 1 1 [] []]
      = Forward_cpu Real.exp (layerOf 4) [blobOf 1 2 1 1 [1, 2] []] [blobOf 1 2 1 1 [] []] ∧
    outData (Forward_cpu Real.exp (layerOf 4)
        [blobOf 1 2 1 1 [1, 2] [], blobOf 1 2 1 1 [1, 2] []] [blobOf 1 2 1 1 [] []])
        2 1 1 0 1 0
      = some (Real.exp ((blobOf 1 2 1 1 [1, 2] [] : Blob ℝ).dataAt 0 1 0
            - channelMax ((blobOf 1 2 1 1 [1, 2] [] : Blob ℝ).channelsAt 0 0) 2 (by decide))
          / (∑ c in Finset.range 2, Real.exp ((blobOf 1 2 1 1 [1, 2] [] : Blob ℝ).dataAt 0 c 0
            - channelMax ((blobOf 1 2 1 1 [1, 2] [] : Blob ℝ).channelsAt 0 0) 2 (by decide)))
          * 4) ∧
    outScale (Forward_cpu Real.exp (layerOf 4)
        [blobOf 1 2 1 1 [1, 2] [], blobOf 1 2 1 1 [1, 2] []] [blobOf 1 2 1 1 [] []]) 1 1 0 0
      = some (∑ c in Finset.range 2, Real.exp ((blobOf 1 2 1 1 [1, 2] [] : Blob ℝ).dataAt 0 c 0
          - channelMax ((blobOf 1 2 1 1 [1, 2] [] : Blob ℝ).channelsAt 0 0) 2 (by decide))) ∧
    Reshape (layerOf 4) [blobOf 1 2 1 1 [1, 2] [], blobOf 1 2 1 1 [1, 2] []]
        [(blobOf 1 2 1 1 [] [] : Blob ℝ)]
      = ⟨some (Failure.checkFailed ("Softmax Layer takes a single blob as input.")),
          [blobOf 1 2 1 1 [] []], layerOf 4⟩ :=
  Forward_cpu_no_arity_check Real.exp (layerOf 4) (blobOf 1 2 1 1 [1, 2] [])
    (blobOf 1 2 1 1 [1, 2] []) (blobOf 1 2 1 1 [] [])
    [blobOf 1 2 1 1 [1, 2] [], blobOf 1 2 1 1 [1, 2] []] [blobOf 1 2 1 1 [] []] 0 1 0
    (by decide) (by decide) (by decide) (by decide) (Or.inr rfl)

end MultiSoftmax
